import Mathlib

/-!
Verification of the interprocedural call-cache core of the predator shape
analyser (`src/sl/symcall.cc`).

The development shallowly embeds `symcall.cc`: `PerFncCache`, `SymCallCtx`,
`SymCallCache::Private` (the context stack, per-function caches and the
backtrace), `joinHeapsWithCare`, `transferGlVar`, `rediscoverGlVar`,
`resolveHeapCut`, `setCallArgs`, `SymCallCtx::flushCallResults`,
`assignReturnValue`, `destroyStackFrame` and both layers of `getCallCtx`.

The symbolic-heap collaborator (`SymHeap`, `symcut.cc`'s split/join, the
backtrace `SymBackTrace`, and `SymProc` operand resolution) is not part of
the sources; those operations are modelled from the specification's
description of the external interface (each such definition carries a
`Modelled from the spec:` doc comment).  A symbolic heap is abstracted to
its observable surface at this layer: the finite map from program variables
(`CVar`) to their abstract contents, plus the return-value staging slot.

Debug assertions (`CL_BREAK_IF`) whose condition is a genuine predicate on
the program state are modelled as fatal contract violations (the `Option`
result is `none`), following the specification's error taxonomy which calls
them fatal; the constant-string marker `CL_BREAK_IF("not tested")` inside
`rediscoverGlVar` asserts nothing about the state and is modelled as a
no-op, matching the release-build behaviour the specification describes.
-/

namespace Predator

/-- Variable identity: pair of declaration uid and stack-nesting instance
(`CVar` in the sources); instance 0 marks a global variable. -/
structure CVar where
  uid : Nat
  inst : Nat
deriving DecidableEq, Repr

/-- Modelled from the spec: the abstract content a symbolic heap stores for
one program variable; `unknown` is the explicit "unknown value" the
specification's error handling produces for missing call arguments. -/
inductive SymValue where
  | known : Nat → SymValue
  | unknown : SymValue
deriving DecidableEq, Repr

/-- Modelled from the spec: a symbolic heap, abstracted to the surface the
call cache observes — the finite map from live program variables to their
abstract contents plus the return-value staging slot (the target of
`VAL_ADDR_OF_RET`).  A variable is live iff it is bound in `vars`. -/
structure SymHeap where
  vars : List (CVar × SymValue)
  ret : Option SymValue
deriving DecidableEq, Repr

/-- Association-list lookup keyed by `CVar`. -/
def lookupCVar : List (CVar × SymValue) → CVar → Option SymValue
  | [], _ => none
  | p :: rest, cv => if p.1 = cv then some p.2 else lookupCVar rest cv

/-- Content of one variable in a heap. -/
def SymHeap.find? (sh : SymHeap) (cv : CVar) : Option SymValue :=
  lookupCVar sh.vars cv

/-- Modelled from the spec: `isVarAlive` — the heap collaborator reports a
variable live iff it is bound. -/
def isVarAlive (sh : SymHeap) (cv : CVar) : Bool :=
  (sh.find? cv).isSome

/-- Modelled from the spec: enumerate the live program variables
(`gatherProgramVars` of the heap collaborator). -/
def gatherProgramVars (sh : SymHeap) : List CVar :=
  sh.vars.map (·.1)

/-- Modelled from the spec: `splitHeapByCVars` — destructively split a heap
by a set of variables; the first component keeps exactly the variables in
the cut, the second receives the complement.  Both sides keep the
return-value staging slot (the caller explicitly destroys the surround's
copy afterwards). -/
def splitHeapByCVars (sh : SymHeap) (cut : List CVar) : SymHeap × SymHeap :=
  (⟨sh.vars.filter fun p => cut.any fun c => decide (c = p.1), sh.ret⟩,
   ⟨sh.vars.filter fun p => !cut.any fun c => decide (c = p.1), sh.ret⟩)

/-- Modelled from the spec: `joinHeapsByCVars` — merge the second heap's
variables back into the first, by variable identity. -/
def joinHeapsByCVars (dst src : SymHeap) : SymHeap :=
  ⟨dst.vars ++ src.vars, dst.ret⟩

/-- Modelled from the spec: destroy the return-value staging object
(`valDestroyTarget(VAL_ADDR_OF_RET)`). -/
def SymHeap.destroyRet (sh : SymHeap) : SymHeap :=
  ⟨sh.vars, none⟩

/-- Modelled from the spec: write the content of one variable
(`objSetValue` on the object of that variable), creating the binding if the
variable was not yet live. -/
def SymHeap.write (sh : SymHeap) (cv : CVar) (v : SymValue) : SymHeap :=
  ⟨(cv, v) :: sh.vars.filter fun p => !decide (p.1 = cv), sh.ret⟩

/-- Modelled from the spec: `objAt`/`addrOfVar` instantiate the object of a
variable; a variable instantiated but never written holds the explicit
unknown value, which is what the specification's "missing actual argument"
recovery relies on. -/
def SymHeap.ensureVar (sh : SymHeap) (cv : CVar) : SymHeap :=
  if isVarAlive sh cv then sh else ⟨(cv, SymValue.unknown) :: sh.vars, sh.ret⟩

/-- The empty symbolic heap. -/
def emptyHeap : SymHeap := ⟨[], none⟩

/-- Modelled from the spec: structural heap equality (`areEqual`), the
cache key relation — extensional equality of the variable map and of the
return slot. -/
def areEqual (a b : SymHeap) : Bool :=
  decide (a.ret = b.ret) &&
    ((gatherProgramVars a ++ gatherProgramVars b).all fun cv =>
      decide (a.find? cv = b.find? cv))

/-- `joinHeapsWithCare` from `symcall.cc`: before joining the surround back
in, split away every variable the result heap itself still reports live, so
the join only adds variables absent from the result heap. -/
def joinHeapsWithCare (sh surround : SymHeap) : SymHeap :=
  let live := gatherProgramVars sh
  let safeSurround := (splitHeapByCVars surround live).2
  joinHeapsByCVars sh safeSurround

theorem lookupCVar_append (l₁ l₂ : List (CVar × SymValue)) (cv : CVar) :
    lookupCVar (l₁ ++ l₂) cv =
      match lookupCVar l₁ cv with
      | some v => some v
      | none => lookupCVar l₂ cv := by
  induction l₁ with
  | nil => simp [lookupCVar]
  | cons p rest ih =>
    by_cases h : p.1 = cv <;> simp [lookupCVar, h, ih]

theorem lookupCVar_filter_key (l : List (CVar × SymValue)) (q : CVar → Bool)
    (cv : CVar) :
    lookupCVar (l.filter fun p => q p.1) cv =
      if q cv then lookupCVar l cv else none := by
  induction l with
  | nil => simp [lookupCVar]
  | cons p rest ih =>
    by_cases hq : q p.1
    · by_cases h : p.1 = cv
      · subst h; simp [lookupCVar, hq]
      · simp [List.filter, lookupCVar, hq, h, ih]
    · by_cases h : p.1 = cv
      · subst h; simp [List.filter, lookupCVar, hq, ih]
      · simp [List.filter, lookupCVar, hq, h, ih]

theorem lookupCVar_eq_none_of_not_mem (l : List (CVar × SymValue)) (cv : CVar)
    (h : cv ∉ l.map (·.1)) : lookupCVar l cv = none := by
  induction l with
  | nil => rfl
  | cons p rest ih =>
    simp only [List.map_cons, List.mem_cons] at h
    push_neg at h
    have h1 : p.1 ≠ cv := fun hh => h.1 hh.symm
    simp [lookupCVar, h1, ih h.2]

theorem mem_map_fst_of_lookupCVar_isSome (l : List (CVar × SymValue))
    (cv : CVar) (h : (lookupCVar l cv).isSome) : cv ∈ l.map (·.1) := by
  by_contra hmem
  rw [lookupCVar_eq_none_of_not_mem l cv hmem] at h
  simp at h

/-- Modelled from the spec: the code-storage collaborator's variable
metadata, reduced to what the call cache consults — which declaration uids
are globally scoped (`isOnStack` is its complement). -/
structure Storage where
  glUids : List Nat
deriving DecidableEq, Repr

/-- A variable is stack-scoped iff it is not registered as a global. -/
def Storage.isOnStack (stor : Storage) (uid : Nat) : Bool :=
  !stor.glUids.any fun u => decide (u = uid)

/-- Modelled from the spec: a function descriptor (`CodeStorage::Fnc`) —
uid, formal-parameter uids in positional order, and the set of variable
uids visible to the body. -/
structure Fnc where
  uid : Nat
  args : List Nat
  vars : List Nat
deriving DecidableEq, Repr

/-- Modelled from the spec: an operand of a call instruction — void, a
constant, or a program variable tagged with the uid of the function owning
it (needed to resolve its nesting instance). -/
inductive Operand where
  | void
  | cst : Nat → Operand
  | var : Nat → Nat → Operand
deriving DecidableEq, Repr

/-- Modelled from the spec: a call instruction exposes its ordered operand
list (destination, callee, then the actual arguments) and the set of
variables the instruction itself defines (killed before the call semantics
apply). -/
structure Insn where
  operands : List Operand
  kills : List CVar
deriving DecidableEq, Repr

/-- One frame of the backtrace: function uid and the heap snapshot recorded
at call time. -/
structure BtFrame where
  fncUid : Nat
  heap : SymHeap
deriving DecidableEq, Repr

/-- Modelled from the spec: the call stack (`SymBackTrace`), topmost frame
first. -/
structure SymBackTrace where
  frames : List BtFrame
deriving DecidableEq, Repr

/-- `pushCall`: record a new frame on top. -/
def pushCall (bt : SymBackTrace) (uid : Nat) (sh : SymHeap) : SymBackTrace :=
  ⟨⟨uid, sh⟩ :: bt.frames⟩

/-- `popCall`: drop the topmost frame. -/
def popCall (bt : SymBackTrace) : SymBackTrace :=
  ⟨bt.frames.tail⟩

/-- `countOccurrencesOfFnc`: current nesting depth of one function. -/
def countOccurrencesOfFnc (bt : SymBackTrace) (uid : Nat) : Nat :=
  (bt.frames.filter fun fr => decide (fr.fncUid = uid)).length

/-- `countOccurrencesOfTopFnc`: nesting depth of the function on top. -/
def countOccurrencesOfTopFnc (bt : SymBackTrace) : Nat :=
  match bt.frames.head? with
  | none => 0
  | some fr => countOccurrencesOfFnc bt fr.fncUid

/-- Modelled from the spec: `SymProc` operand resolution — a variable
operand resolves to the `CVar` whose instance is the owning function's
current nesting depth in the supplied backtrace (0 for globals). -/
def resolveOperand (stor : Storage) (bt : SymBackTrace) (op : Operand) :
    Option CVar :=
  match op with
  | .var uid owner =>
      some ⟨uid, if stor.isOnStack uid then countOccurrencesOfFnc bt owner else 0⟩
  | _ => none

/-- Modelled from the spec: `valFromOperand` — read the abstract value an
operand denotes, against the given (caller-side) backtrace. -/
def valFromOperand (stor : Storage) (bt : SymBackTrace) (sh : SymHeap)
    (op : Operand) : SymValue :=
  match op with
  | .cst n => .known n
  | .void => .unknown
  | .var uid owner =>
      match resolveOperand stor bt (.var uid owner) with
      | some cv => (sh.find? cv).getD .unknown
      | none => .unknown

/-- Diagnostics `setCallArgs` can emit (`CL_DEBUG_MSG` sites). -/
inductive Diag where
  | tooManyArgs
  | missingArg : Nat → Diag
deriving DecidableEq, Repr

/-- The argument-binding loop of `setCallArgs`: walk the formal parameters,
instantiate each formal's object at the callee's nesting level, and copy
the matching actual operand's value in; when the operand list is exhausted
the formal keeps the explicit unknown value and a diagnostic is emitted. -/
def bindArgs (stor : Storage) (callerBt : SymBackTrace) (nestLevel : Nat)
    (opList : List Operand) :
    List Nat → Nat → SymHeap → List Diag → SymHeap × List Diag
  | [], _, sh, ds => (sh, ds)
  | arg :: rest, pos, sh, ds =>
      let cv : CVar := ⟨arg, nestLevel⟩
      let sh1 := sh.ensureVar cv
      match opList.get? pos with
      | none => bindArgs stor callerBt nestLevel opList rest pos sh1
          (ds ++ [Diag.missingArg arg])
      | some op => bindArgs stor callerBt nestLevel opList rest (pos + 1)
          (sh1.write cv (valFromOperand stor callerBt sh1 op)) ds

/-- `setCallArgs` from `symcall.cc`: emit a diagnostic when more actuals
are given than formals declared, then bind each formal parameter from the
operand at its position (the first two operands are destination and
callee), reading actuals through the caller-side backtrace (the callee's
frame popped off). -/
def setCallArgs (stor : Storage) (bt : SymBackTrace) (fnc : Fnc)
    (insn : Insn) (sh : SymHeap) : SymHeap × List Diag :=
  let opList := insn.operands
  let d0 : List Diag :=
    if fnc.args.length + 2 < opList.length then [Diag.tooManyArgs] else []
  let callerBt := popCall bt
  let nestLevel := countOccurrencesOfFnc bt fnc.uid
  bindArgs stor callerBt nestLevel opList fnc.args 2 sh d0

/-- `killInsn`: remove the variables the call instruction itself defines
from the heap before the call semantics are applied. -/
def killInsn (insn : Insn) (sh : SymHeap) : SymHeap :=
  ⟨sh.vars.filter fun p => !insn.kills.any fun k => decide (k = p.1), sh.ret⟩

/-- One call context (`SymCallCtx`): target function, pruned entry heap,
surround heap, destination operand, collected raw result heaps, nesting
level, the `computed`/`flushed` state machine, and the set of globals whose
rediscovery forces re-execution. -/
structure SymCallCtx where
  fnc : Fnc
  entry : SymHeap
  surround : SymHeap
  dst : Operand
  rawResults : List SymHeap
  nestLevel : Nat
  computed : Bool
  flushed : Bool
  needReexecFor : List CVar
deriving DecidableEq, Repr

/-- `needExec`: true until results have been computed for this context. -/
def needExec (c : SymCallCtx) : Bool :=
  !c.computed

/-- Set insertion into a `needReexecFor` set (`std::set::insert`). -/
def insertCVar (cv : CVar) (l : List CVar) : List CVar :=
  if cv ∈ l then l else l ++ [cv]

/-- Insert one variable into a context's `needReexecFor` set
(`ctx->d->needReexecFor.insert(cv)`). -/
def insReex (cv : CVar) (c : SymCallCtx) : SymCallCtx :=
  { c with needReexecFor := insertCVar cv c.needReexecFor }

/-- Contexts are heap-allocated and shared between the per-function caches
and the live-context stack; the embedding stores them in an arena indexed
by allocation order.  Fetch the context with a given id. -/
def getCtx : List SymCallCtx → Nat → Option SymCallCtx
  | [], _ => none
  | c :: _, 0 => some c
  | _ :: cs, n + 1 => getCtx cs n

/-- Update the context with a given id in the arena. -/
def modifyCtx : List SymCallCtx → Nat → (SymCallCtx → SymCallCtx) →
    List SymCallCtx
  | [], _, _ => []
  | c :: cs, 0, f => f c :: cs
  | c :: cs, n + 1, f => c :: modifyCtx cs n f

/-- One per-function cache (`PerFncCache`): the list of (entry heap, context
id) slots, in insertion order. -/
abbrev PfcSlots := List (SymHeap × Nat)

/-- `PerFncCache::lookup`: return the context of the first slot whose heap
is structurally equal to the given one, if any. -/
def pfcLookup : PfcSlots → SymHeap → Option Nat
  | [], _ => none
  | sl :: rest, h => if areEqual sl.1 h then some sl.2 else pfcLookup rest h

/-- `PerFncCache::insert`: append a new slot. -/
def pfcInsert (slots : PfcSlots) (h : SymHeap) (cid : Nat) : PfcSlots :=
  slots ++ [(h, cid)]

/-- `PerFncCache::updateCacheEntry`: replace the stored heap of the slot
structurally equal to `ofH` by `newH`, keeping the context; when no slot
matches the call is a no-op (the debug build would trap). -/
def pfcUpdate : PfcSlots → SymHeap → SymHeap → PfcSlots
  | [], _, _ => []
  | sl :: rest, ofH, newH =>
      if areEqual sl.1 ofH then (newH, sl.2) :: rest
      else sl :: pfcUpdate rest ofH newH

/-- The whole cache (`SymCallCache::Private::cache`): per-function caches
keyed by function uid; `operator[]` semantics — a missing entry reads as
empty. -/
def cacheSlots : List (Nat × PfcSlots) → Nat → PfcSlots
  | [], _ => []
  | e :: rest, uid => if e.1 = uid then e.2 else cacheSlots rest uid

/-- Store the per-function cache of one function uid. -/
def cacheSet : List (Nat × PfcSlots) → Nat → PfcSlots → List (Nat × PfcSlots)
  | [], uid, slots => [(uid, slots)]
  | e :: rest, uid, slots =>
      if e.1 = uid then (uid, slots) :: rest else e :: cacheSet rest uid slots

/-- The mutable state of `SymCallCache::Private`: the context arena, the
per-function caches, the live-context stack (topmost id first) and the
backtrace, plus the code-storage metadata. -/
structure CacheState where
  stor : Storage
  ctxs : List SymCallCtx
  cache : List (Nat × PfcSlots)
  ctxStack : List Nat
  bt : SymBackTrace
deriving DecidableEq, Repr

/-- The `needReexecFor` set of the context with a given id in a context
arena ([] when the id is unallocated). -/
def nrOf (l : List SymCallCtx) (i : Nat) : List CVar :=
  ((getCtx l i).map (·.needReexecFor)).getD []

/-- The `needReexecFor` set of the context with a given id ([] when the id
is unallocated). -/
def needReexecAt (s : CacheState) (i : Nat) : List CVar :=
  nrOf s.ctxs i

/-- `transferGlVar` from `symcall.cc`: cut the variable (with everything
reachable only through it) out of the ancestor heap, then join it into the
destination heap. -/
def transferGlVar (dst src : SymHeap) (cv : CVar) : SymHeap :=
  joinHeapsByCVars dst ⟨(splitHeapByCVars src [cv]).1.vars, none⟩

/-- Result triple of `rediscoverGlVar`. -/
structure RediscResult where
  found : Bool
  sh : SymHeap
  state : CacheState
deriving DecidableEq, Repr

/-- The scan of the backward loop of `rediscoverGlVar` over a list of
stacked context ids (topmost first): index of the first context whose
surround holds the variable alive. -/
def findAliveIdxList (ctxs : List SymCallCtx) (cv : CVar) :
    List Nat → Option Nat
  | [] => none
  | cid :: rest =>
      match getCtx ctxs cid with
      | some c =>
          if isVarAlive c.surround cv then some 0
          else (findAliveIdxList ctxs cv rest).map (· + 1)
      | none => (findAliveIdxList ctxs cv rest).map (· + 1)

/-- The backward scan of `rediscoverGlVar`: position (from the top of the
live-context stack) of the nearest context whose surround holds the
variable alive. -/
def findAliveIdx (s : CacheState) (cv : CVar) : Option Nat :=
  findAliveIdxList s.ctxs cv s.ctxStack

/-- Surround heap of the context at one stack position. -/
def surroundAt (s : CacheState) (p : Nat) : SymHeap :=
  match s.ctxStack.get? p with
  | none => emptyHeap
  | some cid => ((getCtx s.ctxs cid).map (·.surround)).getD emptyHeap

/-- The cache part of one step of the rediscovery loop
(`pfc.updateCacheEntry(src, dst)` on the per-function cache of one
function uid): replace the slot holding the context's entry heap by the
entry with the variable's content spliced in. -/
def rediscSlotUpdate (origin : SymHeap) (cv : CVar)
    (cache : List (Nat × PfcSlots)) (uid : Nat) (entryHeap : SymHeap) :
    List (Nat × PfcSlots) :=
  cacheSet cache uid
    (pfcUpdate (cacheSlots cache uid) entryHeap
      (transferGlVar entryHeap origin cv))

/-- The body of the upward loop of `rediscoverGlVar` for one intervening
context: insert the variable into its `needReexecFor`, then update the slot
of the per-function cache of the backtrace's top function, replacing the
heap structurally equal to the context's entry by the entry with the
variable's content spliced in.  Note the context's own `entry` field is
left untouched; only the cache's stored heap changes. -/
def processIntervening (origin : SymHeap) (cv : CVar) (st : CacheState)
    (cid : Nat) : CacheState :=
  match getCtx (modifyCtx st.ctxs cid (insReex cv)) cid,
      st.bt.frames.head? with
  | some c, some fr =>
      { st with ctxs := modifyCtx st.ctxs cid (insReex cv),
                cache := rediscSlotUpdate origin cv st.cache fr.fncUid c.entry }
  | _, _ => { st with ctxs := modifyCtx st.ctxs cid (insReex cv) }

/-- Run the upward loop over a list of intervening context ids, in the
order the source iterates them (from just above the found frame towards the
top). -/
def processInterveningList (origin : SymHeap) (cv : CVar) :
    List Nat → CacheState → CacheState
  | [], st => st
  | cid :: rest, st =>
      processInterveningList origin cv rest (processIntervening origin cv st cid)

/-- `SymCallCache::Private::rediscoverGlVar`: scan the live-context stack
from the top for the nearest context whose surround holds the variable
alive; on failure report false.  On success insert the variable into the
found context's `needReexecFor`, process every context above it (insert
into `needReexecFor`, splice the variable into the cached entry heap), and
finally transfer the variable into the caller's current heap. -/
def rediscoverGlVar (s : CacheState) (entry : SymHeap) (cv : CVar) :
    RediscResult :=
  match findAliveIdx s cv with
  | none => ⟨false, entry, s⟩
  | some p =>
      let foundCid := (s.ctxStack.get? p).getD 0
      let origin := surroundAt s p
      let s1 : CacheState :=
        { s with ctxs := modifyCtx s.ctxs foundCid (insReex cv) }
      let s2 := processInterveningList origin cv (s.ctxStack.take p).reverse s1
      ⟨true, transferGlVar entry origin cv, s2⟩

/-- Result of the global-variable half of `resolveHeapCut`. -/
structure CutResult where
  cut : List CVar
  sh : SymHeap
  state : CacheState
  rediscovered : Bool
deriving DecidableEq, Repr

/-- The global-variable loop of `resolveHeapCut`: every globally scoped uid
the callee's body can reference joins the cut when it is alive in the heap
or when `rediscoverGlVar` succeeds for it; `rediscovered` records whether
any rediscovery actually took place. -/
def cutGlobals (s : CacheState) (sh : SymHeap) : List Nat → CutResult
  | [] => ⟨[], sh, s, false⟩
  | uid :: rest =>
      if s.stor.isOnStack uid then cutGlobals s sh rest
      else
        let cv : CVar := ⟨uid, 0⟩
        if isVarAlive sh cv then
          let r := cutGlobals s sh rest
          ⟨cv :: r.cut, r.sh, r.state, r.rediscovered⟩
        else
          let rd := rediscoverGlVar s sh cv
          if rd.found then
            let r := cutGlobals rd.state rd.sh rest
            ⟨cv :: r.cut, r.sh, r.state, true⟩
          else
            cutGlobals rd.state rd.sh rest

/-- The local-variable loop of `resolveHeapCut`: every live, stack-scoped
variable belonging to the callee at the current nesting level joins the
cut. -/
def cutLocals (stor : Storage) (fncVars : List Nat) (nl : Nat)
    (sh : SymHeap) : List CVar :=
  (gatherProgramVars sh).filter fun cv =>
    stor.isOnStack cv.uid &&
      (fncVars.any fun u => decide (u = cv.uid)) && decide (cv.inst = nl)

/-- `SymCallCache::Private::resolveHeapCut`: the cut set keeps, with the
callee, the accessible globals (rediscovering the ones not currently live)
followed by the callee's own locals at the current nesting level. -/
def resolveHeapCut (s : CacheState) (sh : SymHeap) (fnc : Fnc) : CutResult :=
  let nl := countOccurrencesOfTopFnc s.bt
  let r := cutGlobals s sh fnc.vars
  ⟨r.cut ++ cutLocals s.stor fnc.vars nl r.sh, r.sh, r.state, r.rediscovered⟩

/-- `SymCallCache::Private::getCallCtx`: look the pruned entry heap up in
the callee's per-function cache.  On miss allocate a fresh context, store
it and push it on the live-context stack.  On a hit whose context is not
yet computed, or not yet flushed, report an error and return no context
(the state is left as it is).  On a clean hit push the context on the
live-context stack and return it. -/
def getCallCtxPriv (s : CacheState) (entry : SymHeap) (fnc : Fnc) :
    Option Nat × CacheState :=
  let slots := cacheSlots s.cache fnc.uid
  match pfcLookup slots entry with
  | none =>
      let cid := s.ctxs.length
      let c : SymCallCtx :=
        { fnc := fnc, entry := entry, surround := emptyHeap,
          dst := Operand.void, rawResults := [], nestLevel := 0,
          computed := false, flushed := false, needReexecFor := [] }
      (some cid,
        { s with ctxs := s.ctxs ++ [c],
                 cache := cacheSet s.cache fnc.uid (pfcInsert slots entry cid),
                 ctxStack := cid :: s.ctxStack })
  | some cid =>
      match getCtx s.ctxs cid with
      | none => (none, s)
      | some c =>
          if !c.computed then (none, s)
          else if !c.flushed then (none, s)
          else (some cid, { s with ctxStack := cid :: s.ctxStack })

/-- Result of the preparatory phase of the public `getCallCtx`. -/
structure PrepResult where
  state : CacheState
  pruned : SymHeap
  surround : SymHeap
  rediscovered : Bool
deriving DecidableEq, Repr

/-- The preparatory phase of `SymCallCache::getCallCtx`, before the cache
is consulted: push a backtrace frame for the callee, bind the call
arguments, kill the instruction's own effects, resolve the heap cut
(possibly rediscovering globals), split the heap into the pruned entry and
the surround, and destroy the surround's return-value staging object. -/
def prepCall (s : CacheState) (entry : SymHeap) (fnc : Fnc) (insn : Insn) :
    PrepResult :=
  let bt1 := pushCall s.bt fnc.uid entry
  let s1 : CacheState := { s with bt := bt1 }
  let sh1 := (setCallArgs s.stor bt1 fnc insn entry).1
  let sh2 := killInsn insn sh1
  let r := resolveHeapCut s1 sh2 fnc
  let pr := splitHeapByCVars r.sh r.cut
  ⟨r.state, pr.1, pr.2.destroyRet, r.rediscovered⟩

/-- `SymCallCache::getCallCtx` (the public operation): run the preparatory
phase, then fetch or create the context; on success record the destination
operand, the nesting level and the surround on the context and clear its
`flushed` flag.  On failure the state produced so far — with the backtrace
frame still pushed — is returned as is. -/
def SymCallCache.getCallCtx (s : CacheState) (entry : SymHeap) (fnc : Fnc)
    (insn : Insn) : Option Nat × CacheState :=
  let pr := prepCall s entry fnc insn
  let nl := countOccurrencesOfFnc pr.state.bt fnc.uid
  match getCallCtxPriv pr.state pr.pruned fnc with
  | (none, s3) => (none, s3)
  | (some cid, s3) =>
      (some cid,
        { s3 with ctxs := modifyCtx s3.ctxs cid fun c =>
            { c with flushed := false,
                     dst := (insn.operands.get? 0).getD Operand.void,
                     nestLevel := nl,
                     surround := pr.surround } })

/-- The driver deposits one raw result heap into a context's collector
(`rawResults().insert(...)`). -/
def depositResult (s : CacheState) (cid : Nat) (sh : SymHeap) : CacheState :=
  { s with ctxs := modifyCtx s.ctxs cid fun c =>
      { c with rawResults := c.rawResults ++ [sh] } }

/-- `SymCallCtx::Private::assignReturnValue`: nothing to do for a void
destination; otherwise resolve the destination object against the caller's
backtrace (the callee's frame popped off locally), read the value staged at
the return slot, and write it there.  A missing staged value or an
unresolvable destination is a contract violation (`CL_BREAK_IF`). -/
def assignReturnValue (stor : Storage) (bt : SymBackTrace) (c : SymCallCtx)
    (sh : SymHeap) : Option SymHeap :=
  match c.dst with
  | Operand.void => some sh
  | op =>
      let callerBt := popCall bt
      match resolveOperand stor callerBt op with
      | none => none
      | some dcv =>
          match sh.ret with
          | none => none
          | some v => some (sh.write dcv v)

/-- `SymCallCtx::Private::destroyStackFrame`: destroy the return-value
staging object, then every stack-scoped variable that belongs to the callee
at exactly this context's nesting level. -/
def destroyStackFrame (stor : Storage) (c : SymCallCtx) (sh : SymHeap) :
    SymHeap :=
  ⟨sh.vars.filter fun p =>
      !(stor.isOnStack p.1.uid &&
        (c.fnc.vars.any fun u => decide (u = p.1.uid)) &&
        decide (p.1.inst = c.nestLevel)),
    none⟩

/-- Post-processing of one raw result heap inside `flushCallResults`: join
it with the remembered surround, assign the return value, destroy the
callee's stack frame.  The optional post-call abstraction hook is external
to this core and invisible at the variable-map granularity, so it is the
identity here. -/
def processResultHeap (stor : Storage) (bt : SymBackTrace) (c : SymCallCtx)
    (rh : SymHeap) : Option SymHeap :=
  (assignReturnValue stor bt c (joinHeapsWithCare rh c.surround)).map
    (destroyStackFrame stor c)

/-- `SymCallCtx::flushCallResults`: reject a second flush of the same
context and a flush of a context that is not on top of the live-context
stack (both are `CL_BREAK_IF` contract violations); then mark the context
computed and flushed, pop it off the live-context stack, post-process every
collected raw result heap into the output collector, and finally — after
all results are processed — pop the backtrace frame. -/
def flushCallResults (s : CacheState) (cid : Nat) :
    Option (CacheState × List SymHeap) :=
  match getCtx s.ctxs cid with
  | none => none
  | some c =>
      if c.flushed then none
      else if s.ctxStack.head? ≠ some cid then none
      else
        let c1 : SymCallCtx := { c with computed := true, flushed := true }
        let s1 : CacheState :=
          { s with ctxs := modifyCtx s.ctxs cid fun _ => c1,
                   ctxStack := s.ctxStack.tail }
        match c1.rawResults.mapM (processResultHeap s.stor s.bt c1) with
        | none => none
        | some outs => some ({ s1 with bt := popCall s1.bt }, outs)

/-- Rendering of the specification's words for the first step of
`flushCallResults` (claim C5): the backtrace frame is popped *up front*,
together with the flag updates and the live-context-stack pop, so the
per-heap post-processing then runs against the already popped backtrace.
This definition follows the spec, not the source; compare
`flushCallResults`. -/
def flushCallResultsSpecOrder (s : CacheState) (cid : Nat) :
    Option (CacheState × List SymHeap) :=
  match getCtx s.ctxs cid with
  | none => none
  | some c =>
      if c.flushed then none
      else if s.ctxStack.head? ≠ some cid then none
      else
        let c1 : SymCallCtx := { c with computed := true, flushed := true }
        let s1 : CacheState :=
          { s with ctxs := modifyCtx s.ctxs cid fun _ => c1,
                   ctxStack := s.ctxStack.tail,
                   bt := popCall s.bt }
        match c1.rawResults.mapM (processResultHeap s.stor s1.bt c1) with
        | none => none
        | some outs => some (s1, outs)

/-- The operations through which the driver can touch the cache state, for
stating state invariants. -/
inductive Op where
  | callCtx : SymHeap → Fnc → Insn → Op
  | deposit : Nat → SymHeap → Op
  | flush : Nat → Op
  | rediscover : SymHeap → CVar → Op
deriving Repr

/-- Apply one driver operation to the state (a rejected flush leaves the
state unchanged). -/
def applyOp (op : Op) (s : CacheState) : CacheState :=
  match op with
  | .callCtx e f i => (SymCallCache.getCallCtx s e f i).2
  | .deposit cid sh => depositResult s cid sh
  | .flush cid =>
      match flushCallResults s cid with
      | some (t, _) => t
      | none => s
  | .rediscover e cv => (rediscoverGlVar s e cv).state

theorem lookupCVar_isSome_of_mem (l : List (CVar × SymValue)) (cv : CVar)
    (h : cv ∈ l.map (·.1)) : (lookupCVar l cv).isSome := by
  induction l with
  | nil => simp at h
  | cons p rest ih =>
    by_cases hp : p.1 = cv
    · simp [lookupCVar, hp]
    · simp only [List.map_cons, List.mem_cons] at h
      rcases h with h | h
      · exact absurd h.symm hp
      · simp [lookupCVar, hp, ih h]

theorem not_mem_gather_of_not_alive (sh : SymHeap) (cv : CVar)
    (h : isVarAlive sh cv = false) : cv ∉ gatherProgramVars sh := by
  intro hmem
  have := lookupCVar_isSome_of_mem sh.vars cv hmem
  simp [isVarAlive, SymHeap.find?] at h
  simp [h] at this

/-- Claim C7: the surround join performed by `flushCallResults` adds only
variables absent from the result heap — every variable the result heap
reports live keeps exactly its value from the result heap, and a variable
not live there receives its value from the surround. -/
theorem claim_C7_join_only_absent (sh surround : SymHeap) (cv : CVar) :
    (isVarAlive sh cv = true →
      (joinHeapsWithCare sh surround).find? cv = sh.find? cv)
    ∧ (isVarAlive sh cv = false →
      (joinHeapsWithCare sh surround).find? cv = surround.find? cv) := by
  constructor
  · intro halive
    simp only [joinHeapsWithCare, joinHeapsByCVars, splitHeapByCVars,
      SymHeap.find?]
    rw [lookupCVar_append]
    simp only [isVarAlive, SymHeap.find?] at halive
    rcases Option.isSome_iff_exists.mp halive with ⟨v, hv⟩
    simp [hv]
  · intro hdead
    simp only [joinHeapsWithCare, joinHeapsByCVars, splitHeapByCVars,
      SymHeap.find?]
    rw [lookupCVar_append]
    have hnone : lookupCVar sh.vars cv = none := by
      simpa [isVarAlive, SymHeap.find?, Option.isSome_iff_exists] using hdead
    rw [hnone]
    rw [lookupCVar_filter_key surround.vars
      (fun k => !(gatherProgramVars sh).any fun c => decide (c = k)) cv]
    have hmem := not_mem_gather_of_not_alive sh cv hdead
    have : ((gatherProgramVars sh).any fun c => decide (c = cv)) = false := by
      simp only [List.any_eq_false]
      intro c hc
      simp only [decide_eq_true_eq]
      intro hcc
      exact hmem (hcc ▸ hc)
    simp [this]

def wit7sh : SymHeap := ⟨[(⟨1, 0⟩, SymValue.known 3)], none⟩

def wit7sur : SymHeap :=
  ⟨[(⟨1, 0⟩, SymValue.known 9), (⟨2, 0⟩, SymValue.known 4)], none⟩

theorem claim_C7_witness :
    (joinHeapsWithCare wit7sh wit7sur).find? ⟨1, 0⟩ = wit7sh.find? ⟨1, 0⟩
    ∧ (joinHeapsWithCare wit7sh wit7sur).find? ⟨2, 0⟩ = wit7sur.find? ⟨2, 0⟩ :=
  ⟨(claim_C7_join_only_absent wit7sh wit7sur ⟨1, 0⟩).1 (by decide),
   (claim_C7_join_only_absent wit7sh wit7sur ⟨2, 0⟩).2 (by decide)⟩

/-- Claim C6: a second `flushCallResults` on a context that is already
flushed (and has not been handed out again, which would have cleared the
flag) is rejected. -/
theorem claim_C6_double_flush_rejected (s : CacheState) (cid : Nat)
    (c : SymCallCtx) (hc : getCtx s.ctxs cid = some c)
    (hf : c.flushed = true) :
    flushCallResults s cid = none := by
  simp [flushCallResults, hc, hf]

def wit6ctx : SymCallCtx :=
  { fnc := ⟨1, [], []⟩, entry := emptyHeap, surround := emptyHeap,
    dst := Operand.void, rawResults := [], nestLevel := 1, computed := true,
    flushed := true, needReexecFor := [] }

def wit6state : CacheState :=
  { stor := ⟨[]⟩, ctxs := [wit6ctx], cache := [], ctxStack := [],
    bt := ⟨[]⟩ }

theorem claim_C6_witness : flushCallResults wit6state 0 = none :=
  claim_C6_double_flush_rejected wit6state 0 wit6ctx rfl rfl

/-- Claim C3: a per-function-cache hit whose context is not both computed
and flushed (a reentrant pattern) makes `getCallCtx` fail for that call
path — an error is reported, no context is returned, and the state is
neither reused nor extended by a re-created context. -/
theorem claim_C3_reentrant_hit_fails (s : CacheState) (pruned : SymHeap)
    (fnc : Fnc) (cid : Nat) (c : SymCallCtx)
    (hl : pfcLookup (cacheSlots s.cache fnc.uid) pruned = some cid)
    (hc : getCtx s.ctxs cid = some c)
    (hnot : ¬(c.computed = true ∧ c.flushed = true)) :
    getCallCtxPriv s pruned fnc = (none, s) := by
  simp only [getCallCtxPriv, hl, hc]
  by_cases h1 : c.computed
  · by_cases h2 : c.flushed
    · exact absurd ⟨h1, h2⟩ hnot
    · simp [h1, h2]
  · simp [h1]

def wit3ctx : SymCallCtx :=
  { fnc := ⟨1, [], []⟩, entry := emptyHeap, surround := emptyHeap,
    dst := Operand.void, rawResults := [], nestLevel := 1, computed := false,
    flushed := false, needReexecFor := [] }

def wit3state : CacheState :=
  { stor := ⟨[]⟩, ctxs := [wit3ctx], cache := [(1, [(emptyHeap, 0)])],
    ctxStack := [0], bt := ⟨[⟨1, emptyHeap⟩]⟩ }

theorem claim_C3_witness :
    getCallCtxPriv wit3state emptyHeap ⟨1, [], []⟩ = (none, wit3state) :=
  claim_C3_reentrant_hit_fails wit3state emptyHeap ⟨1, [], []⟩ 0 wit3ctx
    (by decide) rfl (by decide)

theorem find_ensureVar_ne (sh : SymHeap) (cv cv2 : CVar) (h : cv2 ≠ cv) :
    (sh.ensureVar cv).find? cv2 = sh.find? cv2 := by
  unfold SymHeap.ensureVar
  by_cases ha : isVarAlive sh cv
  · simp [ha]
  · have hne : ¬(cv = cv2) := fun hh => h hh.symm
    simp [ha, SymHeap.find?, lookupCVar, hne]

theorem find_ensureVar_self_dead (sh : SymHeap) (cv : CVar)
    (h : isVarAlive sh cv = false) :
    (sh.ensureVar cv).find? cv = some SymValue.unknown := by
  simp [SymHeap.ensureVar, h, SymHeap.find?, lookupCVar]

theorem find_write_ne (sh : SymHeap) (cv cv2 : CVar) (v : SymValue)
    (h : cv2 ≠ cv) : (sh.write cv v).find? cv2 = sh.find? cv2 := by
  have hne : ¬(cv = cv2) := fun hh => h hh.symm
  simp only [SymHeap.write, SymHeap.find?, lookupCVar, hne, if_false]
  rw [lookupCVar_filter_key sh.vars (fun k => !decide (k = cv)) cv2]
  simp [h]

theorem bindArgs_find_preserved (stor : Storage) (callerBt : SymBackTrace)
    (nl : Nat) (opList : List Operand) :
    ∀ (args : List Nat) (pos : Nat) (sh : SymHeap) (ds : List Diag)
      (uid : Nat), (∀ a ∈ args, a ≠ uid) →
    (bindArgs stor callerBt nl opList args pos sh ds).1.find? ⟨uid, nl⟩
      = sh.find? ⟨uid, nl⟩ := by
  intro args
  induction args with
  | nil => intro pos sh ds uid _; rfl
  | cons a rest ih =>
    intro pos sh ds uid hne
    have hau : a ≠ uid := hne a (List.mem_cons_self a rest)
    have hcv : (⟨uid, nl⟩ : CVar) ≠ ⟨a, nl⟩ := by
      intro hh; exact hau (by cases hh; rfl)
    have hrest : ∀ b ∈ rest, b ≠ uid := fun b hb =>
      hne b (List.mem_cons_of_mem a hb)
    unfold bindArgs
    cases hop : opList.get? pos with
    | none =>
      rw [ih pos (sh.ensureVar ⟨a, nl⟩) (ds ++ [Diag.missingArg a]) uid hrest]
      exact find_ensureVar_ne sh ⟨a, nl⟩ ⟨uid, nl⟩ hcv
    | some op =>
      rw [ih (pos + 1) _ ds uid hrest]
      rw [find_write_ne _ ⟨a, nl⟩ ⟨uid, nl⟩ _ hcv]
      exact find_ensureVar_ne sh ⟨a, nl⟩ ⟨uid, nl⟩ hcv

theorem bindArgs_diag_mono (stor : Storage) (callerBt : SymBackTrace)
    (nl : Nat) (opList : List Operand) :
    ∀ (args : List Nat) (pos : Nat) (sh : SymHeap) (ds : List Diag)
      (d : Diag), d ∈ ds →
    d ∈ (bindArgs stor callerBt nl opList args pos sh ds).2 := by
  intro args
  induction args with
  | nil => intro pos sh ds d hd; exact hd
  | cons a rest ih =>
    intro pos sh ds d hd
    unfold bindArgs
    cases hop : opList.get? pos with
    | none =>
      exact ih pos _ _ d (List.mem_append_left _ hd)
    | some op =>
      exact ih (pos + 1) _ ds d hd

theorem bindArgs_missing (stor : Storage) (callerBt : SymBackTrace)
    (nl : Nat) (opList : List Operand) :
    ∀ (args : List Nat) (j pos : Nat) (sh : SymHeap) (ds : List Diag)
      (uid : Nat),
    args.get? j = some uid →
    (∀ i u, args.get? i = some u → i ≠ j → u ≠ uid) →
    opList.length ≤ pos + j →
    isVarAlive sh ⟨uid, nl⟩ = false →
    (bindArgs stor callerBt nl opList args pos sh ds).1.find? ⟨uid, nl⟩
        = some SymValue.unknown
    ∧ Diag.missingArg uid ∈
        (bindArgs stor callerBt nl opList args pos sh ds).2 := by
  intro args
  induction args with
  | nil => intro j pos sh ds uid hj; simp at hj
  | cons a rest ih =>
    intro j pos sh ds uid hj hdist hlen hdead
    cases j with
    | zero =>
      have ha : a = uid := by simpa using hj
      subst ha
      have hop : opList.get? pos = none := by
        rw [List.get?_eq_none]
        simpa using hlen
      unfold bindArgs
      rw [hop]
      have hrest : ∀ b ∈ rest, b ≠ a := by
        intro b hb
        rcases List.mem_iff_get?.mp hb with ⟨n, hn⟩
        exact hdist (n + 1) b (by simpa using hn) (by simp)
      constructor
      · rw [bindArgs_find_preserved stor callerBt nl opList rest pos _ _ a hrest]
        exact find_ensureVar_self_dead sh ⟨a, nl⟩ hdead
      · exact bindArgs_diag_mono stor callerBt nl opList rest pos _ _
          (Diag.missingArg a) (List.mem_append_right _ (by simp))
    | succ n =>
      have hja : rest.get? n = some uid := by simpa using hj
      have hau : a ≠ uid := by
        have := hdist 0 a (by simp) (by simp)
        exact this
      have hcv : (⟨uid, nl⟩ : CVar) ≠ ⟨a, nl⟩ := by
        intro hh; exact hau (by cases hh; rfl)
      have hdist2 : ∀ i u, rest.get? i = some u → i ≠ n → u ≠ uid := by
        intro i u hi hin
        exact hdist (i + 1) u (by simpa using hi) (by omega)
      unfold bindArgs
      have hdead1 : isVarAlive (sh.ensureVar ⟨a, nl⟩) ⟨uid, nl⟩ = false := by
        simpa [isVarAlive, find_ensureVar_ne sh ⟨a, nl⟩ ⟨uid, nl⟩ hcv]
          using hdead
      cases hop : opList.get? pos with
      | none =>
        have hlen2 : opList.length ≤ pos + n := by
          have := List.get?_eq_none.mp hop
          omega
        exact ih n pos _ _ uid hja hdist2 hlen2 hdead1
      | some op =>
        have hlen2 : opList.length ≤ pos + 1 + n := by omega
        have hdead2 : isVarAlive
            ((sh.ensureVar ⟨a, nl⟩).write ⟨a, nl⟩
              (valFromOperand stor callerBt (sh.ensureVar ⟨a, nl⟩) op))
            ⟨uid, nl⟩ = false := by
          simpa [isVarAlive, find_write_ne _ ⟨a, nl⟩ ⟨uid, nl⟩ _ hcv]
            using hdead1
        exact ih n (pos + 1) _ ds uid hja hdist2 hlen2 hdead2

/-- Claim C4: a call providing fewer actual arguments than the callee has
formal parameters does not make argument binding fail — the formal with no
matching operand ends up holding the explicit unknown value (it is
instantiated, not left out of the heap), a diagnostic is emitted, and
`setCallArgs` returns normally. -/
theorem claim_C4_missing_arg_gets_unknown (stor : Storage)
    (bt : SymBackTrace) (fnc : Fnc) (insn : Insn) (sh : SymHeap)
    (j uid : Nat)
    (hj : fnc.args.get? j = some uid)
    (hnd : fnc.args.Nodup)
    (hmiss : insn.operands.length ≤ 2 + j)
    (hfresh : isVarAlive sh ⟨uid, countOccurrencesOfFnc bt fnc.uid⟩
        = false) :
    (setCallArgs stor bt fnc insn sh).1.find?
        ⟨uid, countOccurrencesOfFnc bt fnc.uid⟩ = some SymValue.unknown
    ∧ Diag.missingArg uid ∈ (setCallArgs stor bt fnc insn sh).2 := by
  have hdist : ∀ i u, fnc.args.get? i = some u → i ≠ j → u ≠ uid := by
    intro i u hi hij hu
    subst hu
    have hlt : i < fnc.args.length := by
      by_contra hge
      rw [List.get?_eq_none.mpr (by omega)] at hi
      exact absurd hi (by simp)
    exact hij (List.get?_inj hlt hnd (hi.trans hj.symm))
  have := bindArgs_missing stor (popCall bt)
    (countOccurrencesOfFnc bt fnc.uid) insn.operands fnc.args j 2 sh
    (if fnc.args.length + 2 < insn.operands.length then [Diag.tooManyArgs]
      else []) uid hj hdist (by omega) hfresh
  exact this

def wit4fnc : Fnc := ⟨2, [10, 11], [10, 11]⟩

def wit4insn : Insn := ⟨[Operand.void, Operand.cst 2, Operand.cst 99], []⟩

def wit4bt : SymBackTrace := ⟨[⟨2, emptyHeap⟩]⟩

theorem claim_C4_witness :
    (setCallArgs ⟨[]⟩ wit4bt wit4fnc wit4insn emptyHeap).1.find? ⟨11, 1⟩
        = some SymValue.unknown
    ∧ Diag.missingArg 11 ∈ (setCallArgs ⟨[]⟩ wit4bt wit4fnc wit4insn
        emptyHeap).2 :=
  claim_C4_missing_arg_gets_unknown ⟨[]⟩ wit4bt wit4fnc wit4insn emptyHeap
    1 11 (by decide) (by decide) (by decide) (by decide)

theorem getCtx_modifyCtx_self (l : List SymCallCtx) (i : Nat)
    (f : SymCallCtx → SymCallCtx) :
    getCtx (modifyCtx l i f) i = (getCtx l i).map f := by
  induction l generalizing i with
  | nil => cases i <;> rfl
  | cons c cs ih =>
    cases i with
    | zero => rfl
    | succ n => simpa [modifyCtx, getCtx] using ih n

theorem getCtx_modifyCtx_ne (l : List SymCallCtx) (i j : Nat)
    (f : SymCallCtx → SymCallCtx) (h : j ≠ i) :
    getCtx (modifyCtx l i f) j = getCtx l j := by
  induction l generalizing i j with
  | nil => cases i <;> rfl
  | cons c cs ih =>
    cases i with
    | zero => cases j with
      | zero => exact absurd rfl h
      | succ m => rfl
    | succ n => cases j with
      | zero => rfl
      | succ m => simpa [modifyCtx, getCtx] using ih n m (by omega)

theorem getCtx_append_of_some (l l2 : List SymCallCtx) (i : Nat)
    (c : SymCallCtx) (h : getCtx l i = some c) :
    getCtx (l ++ l2) i = some c := by
  induction l generalizing i with
  | nil => cases i <;> simp [getCtx] at h
  | cons d ds ih =>
    cases i with
    | zero => simpa [getCtx] using h
    | succ n => simpa [getCtx] using ih n (by simpa [getCtx] using h)

theorem getCtx_append_singleton (l : List SymCallCtx) (c : SymCallCtx) :
    getCtx (l ++ [c]) l.length = some c := by
  induction l with
  | nil => rfl
  | cons d ds ih => simpa [getCtx] using ih

/-- The backtrace, the live-context stack and the storage are untouched by
the per-context step of the rediscovery loop. -/
theorem processIntervening_frame (origin : SymHeap) (cv : CVar)
    (st : CacheState) (cid : Nat) :
    (processIntervening origin cv st cid).bt = st.bt
    ∧ (processIntervening origin cv st cid).ctxStack = st.ctxStack
    ∧ (processIntervening origin cv st cid).stor = st.stor := by
  unfold processIntervening
  cases hg : getCtx (modifyCtx st.ctxs cid (insReex cv)) cid with
  | none =>
    cases hh : st.bt.frames.head? with
    | none => simp [hg, hh]
    | some fr => simp [hg, hh]
  | some c =>
    cases hh : st.bt.frames.head? with
    | none => simp [hg, hh]
    | some fr => simp [hg, hh]

theorem processInterveningList_frame (origin : SymHeap) (cv : CVar)
    (ids : List Nat) (st : CacheState) :
    (processInterveningList origin cv ids st).bt = st.bt
    ∧ (processInterveningList origin cv ids st).ctxStack = st.ctxStack
    ∧ (processInterveningList origin cv ids st).stor = st.stor := by
  induction ids generalizing st with
  | nil => exact ⟨rfl, rfl, rfl⟩
  | cons cid rest ih =>
    have h1 := processIntervening_frame origin cv st cid
    have h2 := ih (processIntervening origin cv st cid)
    exact ⟨h2.1.trans h1.1, h2.2.1.trans h1.2.1, h2.2.2.trans h1.2.2⟩

theorem rediscoverGlVar_frame (s : CacheState) (entry : SymHeap)
    (cv : CVar) :
    (rediscoverGlVar s entry cv).state.bt = s.bt
    ∧ (rediscoverGlVar s entry cv).state.ctxStack = s.ctxStack
    ∧ (rediscoverGlVar s entry cv).state.stor = s.stor := by
  unfold rediscoverGlVar
  cases h : findAliveIdx s cv with
  | none => exact ⟨rfl, rfl, rfl⟩
  | some p =>
    simp only []
    have := processInterveningList_frame (surroundAt s p) cv
      (s.ctxStack.take p).reverse
      { s with ctxs := modifyCtx s.ctxs ((s.ctxStack.get? p).getD 0) fun c =>
          { c with needReexecFor := insertCVar cv c.needReexecFor } }
    exact this

theorem cutGlobals_frame (uids : List Nat) (s : CacheState) (sh : SymHeap) :
    (cutGlobals s sh uids).state.bt = s.bt
    ∧ (cutGlobals s sh uids).state.ctxStack = s.ctxStack
    ∧ (cutGlobals s sh uids).state.stor = s.stor := by
  induction uids generalizing s sh with
  | nil => exact ⟨rfl, rfl, rfl⟩
  | cons uid rest ih =>
    unfold cutGlobals
    by_cases h1 : s.stor.isOnStack uid
    · simpa [h1] using ih s sh
    · by_cases h2 : isVarAlive sh ⟨uid, 0⟩
      · simpa [h1, h2] using ih s sh
      · have hrd := rediscoverGlVar_frame s sh ⟨uid, 0⟩
        have hih := ih (rediscoverGlVar s sh ⟨uid, 0⟩).state
          (rediscoverGlVar s sh ⟨uid, 0⟩).sh
        by_cases h3 : (rediscoverGlVar s sh ⟨uid, 0⟩).found
        · simp only [h1, h2, h3]
          simp only [Bool.false_eq_true, if_false, if_true]
          exact ⟨hih.1.trans hrd.1, hih.2.1.trans hrd.2.1,
            hih.2.2.trans hrd.2.2⟩
        · simp only [h1, h2, h3]
          simp only [Bool.false_eq_true, if_false]
          exact ⟨hih.1.trans hrd.1, hih.2.1.trans hrd.2.1,
            hih.2.2.trans hrd.2.2⟩

theorem prepCall_frame (s : CacheState) (entry : SymHeap) (fnc : Fnc)
    (insn : Insn) :
    (prepCall s entry fnc insn).state.bt = pushCall s.bt fnc.uid entry
    ∧ (prepCall s entry fnc insn).state.ctxStack = s.ctxStack
    ∧ (prepCall s entry fnc insn).state.stor = s.stor := by
  unfold prepCall resolveHeapCut
  have := cutGlobals_frame fnc.vars
    { s with bt := pushCall s.bt fnc.uid entry }
    (killInsn insn (setCallArgs s.stor (pushCall s.bt fnc.uid entry) fnc insn
      entry).1)
  exact this

theorem getCallCtxPriv_none (s : CacheState) (entry : SymHeap) (fnc : Fnc)
    (t : CacheState)
    (h : getCallCtxPriv s entry fnc = (none, t)) : t = s := by
  cases hl : pfcLookup (cacheSlots s.cache fnc.uid) entry with
  | none => simp [getCallCtxPriv, hl] at h
  | some cid =>
    cases hc : getCtx s.ctxs cid with
    | none =>
      simp only [getCallCtxPriv, hl, hc, Prod.mk.injEq] at h
      exact h.2.symm
    | some c =>
      by_cases h1 : c.computed
      · by_cases h2 : c.flushed
        · simp [getCallCtxPriv, hl, hc, h1, h2] at h
        · simp only [getCallCtxPriv, hl, hc, h1, h2, Bool.not_true,
            Bool.not_false, Bool.false_eq_true, if_false, if_true,
            Prod.mk.injEq] at h
          exact h.2.symm
      · simp only [getCallCtxPriv, hl, hc, h1, Bool.not_false,
          Bool.false_eq_true, if_true, Prod.mk.injEq] at h
        exact h.2.symm

/-- Claim C10: when `getCallCtx` fails on a reentrant cache hit, the
operation is not atomic — the backtrace frame pushed on entry is still
there, so the caller observes a backtrace exactly one frame deeper (the
callee's frame on top), even though no context was returned. -/
theorem claim_C10_failure_not_atomic (s : CacheState) (entry : SymHeap)
    (fnc : Fnc) (insn : Insn) (t : CacheState)
    (h : SymCallCache.getCallCtx s entry fnc insn = (none, t)) :
    t.bt.frames = BtFrame.mk fnc.uid entry :: s.bt.frames := by
  cases hp : getCallCtxPriv (prepCall s entry fnc insn).state
      (prepCall s entry fnc insn).pruned fnc with
  | mk o s3 =>
    cases o with
    | none =>
      simp only [SymCallCache.getCallCtx, hp, Prod.mk.injEq] at h
      have ht : t = s3 := h.2.symm
      have hs3 := getCallCtxPriv_none _ _ _ _ hp
      rw [ht, hs3, (prepCall_frame s entry fnc insn).1]
      rfl
    | some cid => simp [SymCallCache.getCallCtx, hp] at h

def wit10ctx : SymCallCtx :=
  { fnc := ⟨1, [], []⟩, entry := emptyHeap, surround := emptyHeap,
    dst := Operand.void, rawResults := [], nestLevel := 1, computed := false,
    flushed := false, needReexecFor := [] }

def wit10state : CacheState :=
  { stor := ⟨[]⟩, ctxs := [wit10ctx], cache := [(1, [(emptyHeap, 0)])],
    ctxStack := [0], bt := ⟨[⟨1, emptyHeap⟩]⟩ }

def wit10insn : Insn := ⟨[Operand.void, Operand.cst 1], []⟩

theorem claim_C10_witness :
    (SymCallCache.getCallCtx wit10state emptyHeap ⟨1, [], []⟩
        wit10insn).2.bt.frames
      = BtFrame.mk 1 emptyHeap :: wit10state.bt.frames :=
  claim_C10_failure_not_atomic wit10state emptyHeap ⟨1, [], []⟩ wit10insn
    (SymCallCache.getCallCtx wit10state emptyHeap ⟨1, [], []⟩ wit10insn).2
    (by decide)

def wit5ctx : SymCallCtx :=
  { fnc := ⟨3, [], [9]⟩, entry := emptyHeap, surround := emptyHeap,
    dst := Operand.var 5 4, rawResults := [⟨[], some (SymValue.known 42)⟩],
    nestLevel := 1, computed := false, flushed := false, needReexecFor := [] }

def wit5state : CacheState :=
  { stor := ⟨[]⟩, ctxs := [wit5ctx], cache := [], ctxStack := [0],
    bt := ⟨[⟨3, emptyHeap⟩, ⟨4, emptyHeap⟩]⟩ }

/-- Claim C5 counterexample: `flushCallResults` does not pop the backtrace
frame as part of its first step.  On a recursive caller, popping the frame
up front (as the claim orders the steps, rendered by
`flushCallResultsSpecOrder`) resolves the return-value destination one
frame too shallow: the source order stores the staged value at nesting
instance 1 of the destination variable, the claimed order at instance 0, so
the two orders produce different results and the claimed order is not what
the code does. -/
theorem claim_C5_counterexample :
    flushCallResults wit5state 0 ≠ flushCallResultsSpecOrder wit5state 0
    ∧ (flushCallResults wit5state 0).map
        (fun r => (r.2.headD emptyHeap).find? ⟨5, 1⟩)
      = some (some (SymValue.known 42))
    ∧ (flushCallResultsSpecOrder wit5state 0).map
        (fun r => (r.2.headD emptyHeap).find? ⟨5, 1⟩)
      = some none := by
  refine ⟨by decide, by decide, by decide⟩

/-- Claim C5 as amended: `flushCallResults` marks the context computed and
flushed and pops it off the live-context stack before joining any result
heap, but the call-stack (backtrace) frame is popped only at the very end —
every collected result heap is post-processed against the still-unpopped
backtrace (which is why `assignReturnValue` pops a local copy), and the
returned state's backtrace is the input one popped exactly once. -/
theorem claim_C5_flush_order (s : CacheState) (cid : Nat) (c : SymCallCtx)
    (t : CacheState) (outs : List SymHeap)
    (hc : getCtx s.ctxs cid = some c)
    (h : flushCallResults s cid = some (t, outs)) :
    ((getCtx t.ctxs cid).map fun d => (d.computed, d.flushed))
        = some (true, true)
    ∧ t.ctxStack = s.ctxStack.tail
    ∧ t.bt = popCall s.bt
    ∧ c.rawResults.mapM (processResultHeap s.stor s.bt
        { c with computed := true, flushed := true }) = some outs := by
  simp only [flushCallResults, hc] at h
  by_cases h1 : c.flushed
  · simp [h1] at h
  · rw [if_neg (by simp [h1])] at h
    by_cases h2 : s.ctxStack.head? = some cid
    · rw [if_neg (by simp [h2])] at h
      cases hm : List.mapM (processResultHeap s.stor s.bt
          { c with computed := true, flushed := true }) c.rawResults with
      | none =>
        rw [hm] at h
        exact Option.noConfusion h
      | some outs0 =>
        rw [hm] at h
        simp only [Option.some.injEq, Prod.mk.injEq] at h
        obtain ⟨ht, houts⟩ := h
        subst houts
        rw [← ht]
        refine ⟨?_, rfl, rfl, rfl⟩
        rw [getCtx_modifyCtx_self, hc]
        rfl
    · rw [if_pos (by simp [h2])] at h
      simp at h

def wit5t : CacheState :=
  { stor := ⟨[]⟩,
    ctxs := [{ fnc := ⟨3, [], [9]⟩, entry := emptyHeap,
               surround := emptyHeap, dst := Operand.var 5 4,
               rawResults := [⟨[], some (SymValue.known 42)⟩],
               nestLevel := 1, computed := true, flushed := true,
               needReexecFor := [] }],
    cache := [], ctxStack := [], bt := ⟨[⟨4, emptyHeap⟩]⟩ }

def wit5outs : List SymHeap :=
  [⟨[(⟨5, 1⟩, SymValue.known 42)], none⟩]

theorem claim_C5_witness :
    ((getCtx wit5t.ctxs 0).map fun d => (d.computed, d.flushed))
        = some (true, true)
    ∧ wit5t.ctxStack = wit5state.ctxStack.tail
    ∧ wit5t.bt = popCall wit5state.bt
    ∧ wit5ctx.rawResults.mapM (processResultHeap wit5state.stor
        wit5state.bt { wit5ctx with computed := true, flushed := true })
      = some wit5outs :=
  claim_C5_flush_order wit5state 0 wit5ctx wit5t wit5outs rfl (by decide)

theorem flushCallResults_some (s : CacheState) (cid : Nat) (c : SymCallCtx)
    (t : CacheState) (outs : List SymHeap)
    (hc : getCtx s.ctxs cid = some c)
    (h : flushCallResults s cid = some (t, outs)) :
    List.mapM (processResultHeap s.stor s.bt
        { c with computed := true, flushed := true }) c.rawResults
      = some outs := by
  simp only [flushCallResults, hc] at h
  by_cases h1 : c.flushed
  · simp [h1] at h
  · rw [if_neg (by simp [h1])] at h
    by_cases h2 : s.ctxStack.head? = some cid
    · rw [if_neg (by simp [h2])] at h
      cases hm : List.mapM (processResultHeap s.stor s.bt
          { c with computed := true, flushed := true }) c.rawResults with
      | none =>
        rw [hm] at h
        exact Option.noConfusion h
      | some outs0 =>
        rw [hm] at h
        simp only [Option.some.injEq, Prod.mk.injEq] at h
        rw [h.2]
    · rw [if_pos (by simp [h2])] at h
      simp at h

theorem mapM_singleton (f : SymHeap → Option SymHeap) (a : SymHeap) :
    List.mapM f [a] =
      match f a with
      | none => none
      | some b => some [b] := by
  cases hf : f a <;> simp [List.mapM, List.mapM.loop, hf]

theorem joinHeapsWithCare_ret (sh surround : SymHeap) :
    (joinHeapsWithCare sh surround).ret = sh.ret := rfl

theorem find_write_self (sh : SymHeap) (cv : CVar) (v : SymValue) :
    (sh.write cv v).find? cv = some v := by
  simp [SymHeap.write, SymHeap.find?, lookupCVar]

theorem find_destroyStackFrame (stor : Storage) (c : SymCallCtx)
    (sh : SymHeap) (cv : CVar)
    (hkeep : (stor.isOnStack cv.uid &&
        (c.fnc.vars.any fun u => decide (u = cv.uid)) &&
        decide (cv.inst = c.nestLevel)) = false) :
    (destroyStackFrame stor c sh).find? cv = sh.find? cv := by
  unfold destroyStackFrame
  show lookupCVar (sh.vars.filter fun p =>
      !(stor.isOnStack p.1.uid &&
        (c.fnc.vars.any fun u => decide (u = p.1.uid)) &&
        decide (p.1.inst = c.nestLevel))) cv = sh.find? cv
  rw [lookupCVar_filter_key sh.vars (fun k =>
      !(stor.isOnStack k.uid &&
        (c.fnc.vars.any fun u => decide (u = k.uid)) &&
        decide (k.inst = c.nestLevel))) cv]
  simp [hkeep, SymHeap.find?]

/-- Claim C8: for a void destination operand the return-value assignment is
skipped entirely; for a non-void destination, the value staged at the
return slot of the (single) result heap is, after `flushCallResults`,
readable at the destination variable resolved against the caller's
backtrace — the callee's backtrace with its own frame popped off — provided
the destination is not one of the callee-frame variables destroyed on
return. -/
theorem claim_C8_return_value (s : CacheState) (cid : Nat) (c : SymCallCtx)
    (hc : getCtx s.ctxs cid = some c) :
    (c.dst = Operand.void →
      ∀ sh, assignReturnValue s.stor s.bt c sh = some sh)
    ∧ (∀ uid owner v rh t outs dcv,
        c.dst = Operand.var uid owner →
        c.rawResults = [rh] →
        rh.ret = some v →
        resolveOperand s.stor (popCall s.bt) (Operand.var uid owner)
          = some dcv →
        (s.stor.isOnStack dcv.uid &&
          (c.fnc.vars.any fun u => decide (u = dcv.uid)) &&
          decide (dcv.inst = c.nestLevel)) = false →
        flushCallResults s cid = some (t, outs) →
        ∃ out, outs = [out] ∧ out.find? dcv = some v) := by
  constructor
  · intro hv sh
    simp [assignReturnValue, hv]
  · intro uid owner v rh t outs dcv hdst hraw hret hres hkeep hfl
    have hm := flushCallResults_some s cid c t outs hc hfl
    set c1 : SymCallCtx := { c with computed := true, flushed := true }
      with hc1
    rw [hraw, mapM_singleton] at hm
    have hjret : (joinHeapsWithCare rh c1.surround).ret = some v := by
      rw [joinHeapsWithCare_ret]; exact hret
    have hassign : assignReturnValue s.stor s.bt c1
        (joinHeapsWithCare rh c1.surround)
        = some ((joinHeapsWithCare rh c1.surround).write dcv v) := by
      have hdst1 : c1.dst = Operand.var uid owner := hdst
      rw [assignReturnValue]
      rw [hdst1]
      simp only [hres, hjret]
    have hproc : processResultHeap s.stor s.bt c1 rh
        = some (destroyStackFrame s.stor c1
            ((joinHeapsWithCare rh c1.surround).write dcv v)) := by
      rw [processResultHeap, hassign]
      rfl
    rw [hproc] at hm
    simp only [Option.some.injEq] at hm
    refine ⟨destroyStackFrame s.stor c1
      ((joinHeapsWithCare rh c1.surround).write dcv v), hm.symm, ?_⟩
    rw [find_destroyStackFrame s.stor c1 _ dcv hkeep]
    exact find_write_self _ dcv v

def wit8vctx : SymCallCtx :=
  { fnc := ⟨1, [], []⟩, entry := emptyHeap, surround := emptyHeap,
    dst := Operand.void, rawResults := [], nestLevel := 1, computed := false,
    flushed := false, needReexecFor := [] }

def wit8vstate : CacheState :=
  { stor := ⟨[]⟩, ctxs := [wit8vctx], cache := [], ctxStack := [0],
    bt := ⟨[]⟩ }

def wit8rh : SymHeap := ⟨[], some (SymValue.known 42)⟩

def wit8ctx : SymCallCtx :=
  { fnc := ⟨3, [], [9]⟩, entry := emptyHeap, surround := emptyHeap,
    dst := Operand.var 5 4, rawResults := [wit8rh], nestLevel := 1,
    computed := false, flushed := false, needReexecFor := [] }

def wit8state : CacheState :=
  { stor := ⟨[]⟩, ctxs := [wit8ctx], cache := [], ctxStack := [0],
    bt := ⟨[⟨3, emptyHeap⟩, ⟨4, emptyHeap⟩]⟩ }

def wit8t : CacheState :=
  { stor := ⟨[]⟩,
    ctxs := [{ fnc := ⟨3, [], [9]⟩, entry := emptyHeap,
               surround := emptyHeap, dst := Operand.var 5 4,
               rawResults := [wit8rh], nestLevel := 1, computed := true,
               flushed := true, needReexecFor := [] }],
    cache := [], ctxStack := [], bt := ⟨[⟨4, emptyHeap⟩]⟩ }

def wit8outs : List SymHeap :=
  [⟨[(⟨5, 1⟩, SymValue.known 42)], none⟩]

theorem claim_C8_witness :
    (assignReturnValue wit8vstate.stor wit8vstate.bt wit8vctx emptyHeap
        = some emptyHeap)
    ∧ ∃ out, wit8outs = [out]
        ∧ out.find? ⟨5, 1⟩ = some (SymValue.known 42) :=
  ⟨(claim_C8_return_value wit8vstate 0 wit8vctx rfl).1 rfl emptyHeap,
   (claim_C8_return_value wit8state 0 wit8ctx rfl).2 5 4
     (SymValue.known 42) wit8rh wit8t wit8outs ⟨5, 1⟩ rfl rfl rfl
     (by decide) (by decide) (by decide)⟩

theorem insertCVar_idem (cv : CVar) (l : List CVar) :
    insertCVar cv (insertCVar cv l) = insertCVar cv l := by
  unfold insertCVar
  by_cases h : cv ∈ l
  · simp [h]
  · simp [h]

theorem insReex_idem (cv : CVar) (c : SymCallCtx) :
    insReex cv (insReex cv c) = insReex cv c := by
  simp [insReex, insertCVar_idem]

theorem processIntervening_ctxs (origin : SymHeap) (cv : CVar)
    (st : CacheState) (cid : Nat) :
    (processIntervening origin cv st cid).ctxs
      = modifyCtx st.ctxs cid (insReex cv) := by
  unfold processIntervening
  cases hg : getCtx (modifyCtx st.ctxs cid (insReex cv)) cid with
  | none =>
    cases hh : st.bt.frames.head? with
    | none => simp [hg, hh]
    | some fr => simp [hg, hh]
  | some c =>
    cases hh : st.bt.frames.head? with
    | none => simp [hg, hh]
    | some fr => simp [hg, hh]

theorem processInterveningList_getCtx (origin : SymHeap) (cv : CVar) :
    ∀ (ids : List Nat) (st : CacheState) (j : Nat),
    getCtx (processInterveningList origin cv ids st).ctxs j
      = if j ∈ ids then (getCtx st.ctxs j).map (insReex cv)
        else getCtx st.ctxs j := by
  intro ids
  induction ids with
  | nil => intro st j; simp [processInterveningList]
  | cons cid rest ih =>
    intro st j
    rw [processInterveningList, ih]
    by_cases hj : j ∈ rest
    · rw [if_pos hj, if_pos (List.mem_cons_of_mem cid hj)]
      rw [processIntervening_ctxs]
      by_cases hjc : j = cid
      · subst hjc
        rw [getCtx_modifyCtx_self]
        cases getCtx st.ctxs j <;> simp [insReex_idem]
      · rw [getCtx_modifyCtx_ne _ _ _ _ hjc]
    · rw [if_neg hj]
      rw [processIntervening_ctxs]
      by_cases hjc : j = cid
      · subst hjc
        rw [getCtx_modifyCtx_self, if_pos (List.mem_cons_self _ _)]
      · rw [getCtx_modifyCtx_ne _ _ _ _ hjc,
          if_neg (by simp [hjc, hj])]

/-- The cache effect of one step of the rediscovery loop, reading the
context arena of a fixed source state (the loop never changes any context's
entry, so reading from the pre-loop state is equivalent). -/
def rediscCacheStep (src : CacheState) (origin : SymHeap) (cv : CVar)
    (cache : List (Nat × PfcSlots)) (cid : Nat) : List (Nat × PfcSlots) :=
  match getCtx src.ctxs cid, src.bt.frames.head? with
  | some c, some fr => rediscSlotUpdate origin cv cache fr.fncUid c.entry
  | _, _ => cache

/-- The per-function caches after a successful rediscovery that found the
variable at stack position `p`: the fold of the per-context cache update
over the intervening contexts, iterated from just above the found frame
towards the top of the stack. -/
def cacheAfterRediscovery (s : CacheState) (p : Nat) (cv : CVar) :
    List (Nat × PfcSlots) :=
  ((s.ctxStack.take p).reverse).foldl
    (rediscCacheStep s (surroundAt s p) cv) s.cache

/-- Two context arenas that agree on every context's entry heap. -/
def entryAgree (a b : List SymCallCtx) : Prop :=
  ∀ j, (getCtx a j).map (·.entry) = (getCtx b j).map (·.entry)

theorem entryAgree_modify_insReex (l : List SymCallCtx) (i : Nat)
    (cv : CVar) : entryAgree (modifyCtx l i (insReex cv)) l := by
  intro j
  by_cases hj : j = i
  · subst hj
    rw [getCtx_modifyCtx_self]
    cases getCtx l j <;> simp [insReex]
  · rw [getCtx_modifyCtx_ne _ _ _ _ hj]

theorem rediscCacheStep_congr (st src : CacheState) (origin : SymHeap)
    (cv : CVar) (cache : List (Nat × PfcSlots)) (cid : Nat)
    (hag : entryAgree st.ctxs src.ctxs) (hbt : st.bt = src.bt) :
    rediscCacheStep st origin cv cache cid
      = rediscCacheStep src origin cv cache cid := by
  unfold rediscCacheStep
  have h := hag cid
  cases h1 : getCtx st.ctxs cid with
  | none =>
    cases h2 : getCtx src.ctxs cid with
    | none => rw [hbt]
    | some c2 => rw [h1, h2] at h; simp at h
  | some c1 =>
    cases h2 : getCtx src.ctxs cid with
    | none => rw [h1, h2] at h; simp at h
    | some c2 =>
      rw [h1, h2] at h
      simp only [Option.map_some', Option.some.injEq] at h
      rw [hbt]
      cases src.bt.frames.head? with
      | none => rfl
      | some fr => simp [h]

theorem processIntervening_cache_eq (st : CacheState) (cid : Nat)
    (origin : SymHeap) (cv : CVar) :
    (processIntervening origin cv st cid).cache
      = rediscCacheStep st origin cv st.cache cid := by
  unfold processIntervening rediscCacheStep
  rw [getCtx_modifyCtx_self]
  cases hg : getCtx st.ctxs cid with
  | none =>
    cases hh : st.bt.frames.head? with
    | none => simp [hh]
    | some fr => simp [hh]
  | some c =>
    cases hh : st.bt.frames.head? with
    | none => simp [hh]
    | some fr => simp [hh, insReex]

theorem processInterveningList_cache (origin : SymHeap) (cv : CVar)
    (src : CacheState) :
    ∀ (ids : List Nat) (st : CacheState),
    entryAgree st.ctxs src.ctxs → st.bt = src.bt →
    (processInterveningList origin cv ids st).cache
      = ids.foldl (rediscCacheStep src origin cv) st.cache := by
  intro ids
  induction ids with
  | nil => intro st _ _; rfl
  | cons cid rest ih =>
    intro st hag hbt
    rw [processInterveningList, List.foldl_cons]
    have hag2 : entryAgree (processIntervening origin cv st cid).ctxs
        src.ctxs := by
      intro j
      rw [processIntervening_ctxs]
      exact (entryAgree_modify_insReex st.ctxs cid cv j).trans (hag j)
    have hbt2 : (processIntervening origin cv st cid).bt = src.bt :=
      (processIntervening_frame origin cv st cid).1.trans hbt
    rw [ih (processIntervening origin cv st cid) hag2 hbt2]
    congr 1
    rw [processIntervening_cache_eq st cid origin cv]
    exact rediscCacheStep_congr st src origin cv st.cache cid hag hbt

theorem stack_get_ne_of_nodup (l : List Nat) (hnd : l.Nodup) (q p : Nat)
    (cid cid2 : Nat) (hq : l.get? q = some cid) (hp : l.get? p = some cid2)
    (hne : q ≠ p) : cid ≠ cid2 := by
  intro he
  subst he
  have hlt : q < l.length := by
    by_contra hge
    rw [List.get?_eq_none.mpr (by omega)] at hq
    exact absurd hq (by simp)
  exact hne (List.get?_inj hlt hnd (hq.trans hp.symm))

theorem mem_take_of_get (l : List Nat) (q p : Nat) (cid : Nat)
    (hq : l.get? q = some cid) (hqp : q < p) : cid ∈ l.take p := by
  have := List.get?_take (l := l) hqp
  exact List.get?_mem (this.trans hq)

theorem not_mem_take_of_nodup (l : List Nat) (hnd : l.Nodup) (q p : Nat)
    (cid : Nat) (hq : l.get? q = some cid) (hqp : p ≤ q) :
    cid ∉ l.take p := by
  intro hmem
  rcases List.mem_iff_get?.mp hmem with ⟨n, hn⟩
  have hnp : n < p := by
    by_contra hge
    have hlen : (l.take p).length ≤ n := by
      rw [List.length_take]
      exact le_trans (min_le_left _ _) (Nat.le_of_not_lt hge)
    rw [List.get?_eq_none.mpr hlen] at hn
    exact absurd hn (by simp)
  have hl : l.get? n = some cid := (List.get?_take hnp).symm.trans hn
  exact stack_get_ne_of_nodup l hnd n q cid cid hl hq (by omega) rfl

theorem findAliveIdxList_lt_length (ctxs : List SymCallCtx) (cv : CVar) :
    ∀ (l : List Nat) (p : Nat), findAliveIdxList ctxs cv l = some p →
    p < l.length ∧ ∃ cid, l.get? p = some cid := by
  intro l
  induction l with
  | nil => intro p h; simp [findAliveIdxList] at h
  | cons cid rest ih =>
    intro p h
    unfold findAliveIdxList at h
    cases hg : getCtx ctxs cid with
    | none =>
      simp only [hg] at h
      cases hr : findAliveIdxList ctxs cv rest with
      | none => simp [hr] at h
      | some p0 =>
        simp only [hr, Option.map_some', Option.some.injEq] at h
        subst h
        rcases ih p0 hr with ⟨h1, cid2, h2⟩
        exact ⟨by simpa using h1, cid2, by simpa using h2⟩
    | some c =>
      simp only [hg] at h
      by_cases ha : isVarAlive c.surround cv
      · rw [if_pos ha] at h
        simp only [Option.some.injEq] at h
        subst h
        exact ⟨by simp, cid, rfl⟩
      · rw [if_neg ha] at h
        cases hr : findAliveIdxList ctxs cv rest with
        | none => simp [hr] at h
        | some p0 =>
          simp only [hr, Option.map_some', Option.some.injEq] at h
          subst h
          rcases ih p0 hr with ⟨h1, cid2, h2⟩
          exact ⟨by simpa using h1, cid2, by simpa using h2⟩

/-- Claim C2 counterexample: in a live-context stack where the variable is
found alive in the surround of frame k, the code also inserts the variable
into the `needReexecFor` set of frame k itself (symcall.cc line 357),
whereas the claim says exactly the frames from k+1 to the top receive it;
moreover an intervening context's own `entry` field is left unchanged (the
spliced heap only replaces the per-function cache slot), whereas the claim
says the content is transferred into the context's entry heap.  Concrete
input: stack of two contexts, the variable alive in the bottom frame's
surround. -/
theorem claim_C2_counterexample :
    findAliveIdx
      { stor := ⟨[7]⟩,
        ctxs := [{ fnc := ⟨1, [], []⟩, entry := emptyHeap,
                   surround := ⟨[(⟨7, 0⟩, SymValue.known 5)], none⟩,
                   dst := Operand.void, rawResults := [], nestLevel := 1,
                   computed := false, flushed := false, needReexecFor := [] },
                 { fnc := ⟨2, [], [7]⟩, entry := emptyHeap,
                   surround := emptyHeap, dst := Operand.void,
                   rawResults := [], nestLevel := 1, computed := false,
                   flushed := false, needReexecFor := [] }],
        cache := [(2, [(emptyHeap, 1)])], ctxStack := [1, 0],
        bt := ⟨[⟨2, emptyHeap⟩, ⟨1, emptyHeap⟩]⟩ } (⟨7, 0⟩ : CVar)
      = some 1
    ∧ ((getCtx (rediscoverGlVar
        { stor := ⟨[7]⟩,
          ctxs := [{ fnc := ⟨1, [], []⟩, entry := emptyHeap,
                     surround := ⟨[(⟨7, 0⟩, SymValue.known 5)], none⟩,
                     dst := Operand.void, rawResults := [], nestLevel := 1,
                     computed := false, flushed := false,
                     needReexecFor := [] },
                   { fnc := ⟨2, [], [7]⟩, entry := emptyHeap,
                     surround := emptyHeap, dst := Operand.void,
                     rawResults := [], nestLevel := 1, computed := false,
                     flushed := false, needReexecFor := [] }],
          cache := [(2, [(emptyHeap, 1)])], ctxStack := [1, 0],
          bt := ⟨[⟨2, emptyHeap⟩, ⟨1, emptyHeap⟩]⟩ } emptyHeap
        ⟨7, 0⟩).state.ctxs 0).map (·.needReexecFor)) = some [⟨7, 0⟩]
    ∧ ((getCtx (rediscoverGlVar
        { stor := ⟨[7]⟩,
          ctxs := [{ fnc := ⟨1, [], []⟩, entry := emptyHeap,
                     surround := ⟨[(⟨7, 0⟩, SymValue.known 5)], none⟩,
                     dst := Operand.void, rawResults := [], nestLevel := 1,
                     computed := false, flushed := false,
                     needReexecFor := [] },
                   { fnc := ⟨2, [], [7]⟩, entry := emptyHeap,
                     surround := emptyHeap, dst := Operand.void,
                     rawResults := [], nestLevel := 1, computed := false,
                     flushed := false, needReexecFor := [] }],
          cache := [(2, [(emptyHeap, 1)])], ctxStack := [1, 0],
          bt := ⟨[⟨2, emptyHeap⟩, ⟨1, emptyHeap⟩]⟩ } emptyHeap
        ⟨7, 0⟩).state.ctxs 1).map (·.entry)) = some emptyHeap
    ∧ isVarAlive emptyHeap ⟨7, 0⟩ = false := by
  refine ⟨by decide, by decide, by decide, by decide⟩

/-- Claim C2 as amended: scanning the live-context stack from the top, let
`p` be the position of the nearest frame whose surround holds the variable
alive (`findAliveIdx`).  When no such frame exists, `rediscoverGlVar`
reports failure and changes nothing.  Otherwise it succeeds, every context
from the found frame (inclusive) to the top of the stack — not only those
strictly above the found frame — gets the variable added to its
`needReexecFor` set, no context's own `entry` field changes, the
variable's content is spliced (split-then-join from the found frame's
surround) into the heap stored in the per-function cache slot of each
strictly intervening context (the slot looked up in the cache of the
backtrace's top function), and the caller's heap receives the variable's
content the same way. -/
theorem claim_C2_rediscovery (s : CacheState) (entry : SymHeap)
    (cv : CVar) :
    (findAliveIdx s cv = none →
      rediscoverGlVar s entry cv = ⟨false, entry, s⟩)
    ∧ (∀ p, findAliveIdx s cv = some p → s.ctxStack.Nodup →
        (rediscoverGlVar s entry cv).found = true
        ∧ (rediscoverGlVar s entry cv).sh
            = transferGlVar entry (surroundAt s p) cv
        ∧ (rediscoverGlVar s entry cv).state.ctxStack = s.ctxStack
        ∧ (rediscoverGlVar s entry cv).state.bt = s.bt
        ∧ (∀ q cid, s.ctxStack.get? q = some cid →
            getCtx (rediscoverGlVar s entry cv).state.ctxs cid
              = (getCtx s.ctxs cid).map
                  (fun c => if q ≤ p then insReex cv c else c))
        ∧ (rediscoverGlVar s entry cv).state.cache
            = cacheAfterRediscovery s p cv) := by
  constructor
  · intro h
    simp [rediscoverGlVar, h]
  · intro p hp hnd
    obtain ⟨hplen, cidF, hcidF⟩ :=
      findAliveIdxList_lt_length s.ctxs cv s.ctxStack p hp
    have hgetD : (s.ctxStack.get? p).getD 0 = cidF := by rw [hcidF]; rfl
    have hframe := processInterveningList_frame (surroundAt s p) cv
      (s.ctxStack.take p).reverse
      { s with ctxs := modifyCtx s.ctxs ((s.ctxStack.get? p).getD 0) (insReex cv) }
    refine ⟨by simp [rediscoverGlVar, hp], by simp [rediscoverGlVar, hp],
      ?_, ?_, ?_, ?_⟩
    · simp only [rediscoverGlVar, hp]
      exact hframe.2.1
    · simp only [rediscoverGlVar, hp]
      exact hframe.1
    · intro q cid hq
      simp only [rediscoverGlVar, hp]
      rw [processInterveningList_getCtx]
      rcases Nat.lt_trichotomy q p with hlt | heq | hgt
      · have hmem : cid ∈ (s.ctxStack.take p).reverse := by
          rw [List.mem_reverse]
          exact mem_take_of_get s.ctxStack q p cid hq hlt
        rw [if_pos hmem]
        have hne : cid ≠ (s.ctxStack.get? p).getD 0 := by
          rw [hgetD]
          exact stack_get_ne_of_nodup s.ctxStack hnd q p cid cidF hq hcidF
            (by omega)
        rw [getCtx_modifyCtx_ne _ _ _ _ hne]
        have hqp : q ≤ p := by omega
        cases getCtx s.ctxs cid <;> simp [hqp]
      · subst heq
        have hcid : (s.ctxStack.get? q).getD 0 = cid := by rw [hq]; rfl
        have hmem : cid ∉ (s.ctxStack.take q).reverse := by
          rw [List.mem_reverse]
          exact not_mem_take_of_nodup s.ctxStack hnd q q cid hq (by omega)
        rw [if_neg hmem, hcid, getCtx_modifyCtx_self]
        cases getCtx s.ctxs cid <;> simp
      · have hmem : cid ∉ (s.ctxStack.take p).reverse := by
          rw [List.mem_reverse]
          exact not_mem_take_of_nodup s.ctxStack hnd q p cid hq (by omega)
        rw [if_neg hmem]
        have hne : cid ≠ (s.ctxStack.get? p).getD 0 := by
          rw [hgetD]
          exact stack_get_ne_of_nodup s.ctxStack hnd q p cid cidF hq hcidF
            (by omega)
        rw [getCtx_modifyCtx_ne _ _ _ _ hne]
        have hqp : ¬q ≤ p := by omega
        cases getCtx s.ctxs cid <;> simp [hqp]
    · simp only [rediscoverGlVar, hp]
      unfold cacheAfterRediscovery
      exact processInterveningList_cache (surroundAt s p) cv s
        (s.ctxStack.take p).reverse
        { s with ctxs := modifyCtx s.ctxs ((s.ctxStack.get? p).getD 0) (insReex cv) }
        (fun j => entryAgree_modify_insReex s.ctxs _ cv j) rfl

def wit2state : CacheState :=
  { stor := ⟨[7]⟩,
    ctxs := [{ fnc := ⟨1, [], []⟩, entry := emptyHeap,
               surround := ⟨[(⟨7, 0⟩, SymValue.known 5)], none⟩,
               dst := Operand.void, rawResults := [], nestLevel := 1,
               computed := false, flushed := false, needReexecFor := [] },
             { fnc := ⟨2, [], [7]⟩, entry := emptyHeap,
               surround := emptyHeap, dst := Operand.void,
               rawResults := [], nestLevel := 1, computed := false,
               flushed := false, needReexecFor := [] }],
    cache := [(2, [(emptyHeap, 1)])], ctxStack := [1, 0],
    bt := ⟨[⟨2, emptyHeap⟩, ⟨1, emptyHeap⟩]⟩ }

theorem claim_C2_witness :
    (rediscoverGlVar wit2state emptyHeap ⟨7, 0⟩).found = true
    ∧ (rediscoverGlVar wit2state emptyHeap ⟨7, 0⟩).sh
        = transferGlVar emptyHeap (surroundAt wit2state 1) ⟨7, 0⟩
    ∧ (rediscoverGlVar wit2state emptyHeap ⟨7, 0⟩).state.ctxStack
        = wit2state.ctxStack
    ∧ (rediscoverGlVar wit2state emptyHeap ⟨7, 0⟩).state.bt = wit2state.bt
    ∧ (∀ q cid, wit2state.ctxStack.get? q = some cid →
        getCtx (rediscoverGlVar wit2state emptyHeap ⟨7, 0⟩).state.ctxs cid
          = (getCtx wit2state.ctxs cid).map
              (fun c => if q ≤ 1 then insReex ⟨7, 0⟩ c else c))
    ∧ (rediscoverGlVar wit2state emptyHeap ⟨7, 0⟩).state.cache
        = cacheAfterRediscovery wit2state 1 ⟨7, 0⟩ :=
  (claim_C2_rediscovery wit2state emptyHeap ⟨7, 0⟩).2 1 (by decide)
    (by decide)

theorem mem_insertCVar (x cv : CVar) (l : List CVar) (h : x ∈ l) :
    x ∈ insertCVar cv l := by
  unfold insertCVar
  by_cases hc : cv ∈ l
  · simpa [hc] using h
  · simp only [hc, if_false]
    exact List.mem_append_left _ h

/-- Pointwise containment of the `needReexecFor` sets of two context
arenas. -/
def nrLeCtxs (a b : List SymCallCtx) : Prop :=
  ∀ i x, x ∈ nrOf a i → x ∈ nrOf b i

theorem nrLeCtxs_refl (l : List SymCallCtx) : nrLeCtxs l l :=
  fun _ _ h => h

theorem nrLeCtxs_trans {a b c : List SymCallCtx} (h1 : nrLeCtxs a b)
    (h2 : nrLeCtxs b c) : nrLeCtxs a c :=
  fun i x hx => h2 i x (h1 i x hx)

theorem nrLeCtxs_modify (l : List SymCallCtx) (i : Nat)
    (f : SymCallCtx → SymCallCtx)
    (hf : ∀ c x, x ∈ c.needReexecFor → x ∈ (f c).needReexecFor) :
    nrLeCtxs l (modifyCtx l i f) := by
  intro j x hx
  by_cases hj : j = i
  · subst hj
    rw [nrOf, getCtx_modifyCtx_self]
    rw [nrOf] at hx
    cases hg : getCtx l j with
    | none => rw [hg] at hx; simp at hx
    | some c =>
      rw [hg] at hx
      simp only [Option.map_some', Option.getD_some] at hx ⊢
      exact hf c x hx
  · rw [nrOf, getCtx_modifyCtx_ne _ _ _ _ hj]
    exact hx

theorem nrLeCtxs_modify_const (l : List SymCallCtx) (i : Nat)
    (c : SymCallCtx) (f : SymCallCtx → SymCallCtx)
    (hc : getCtx l i = some c)
    (hf : ∀ x, x ∈ c.needReexecFor → x ∈ (f c).needReexecFor) :
    nrLeCtxs l (modifyCtx l i f) := by
  intro j x hx
  by_cases hj : j = i
  · subst hj
    rw [nrOf, getCtx_modifyCtx_self, hc]
    rw [nrOf, hc] at hx
    simp only [Option.map_some', Option.getD_some] at hx ⊢
    exact hf x hx
  · rw [nrOf, getCtx_modifyCtx_ne _ _ _ _ hj]
    exact hx

theorem nrLeCtxs_append (l l2 : List SymCallCtx) : nrLeCtxs l (l ++ l2) := by
  intro j x hx
  rw [nrOf] at hx ⊢
  cases hg : getCtx l j with
  | none => rw [hg] at hx; simp at hx
  | some c =>
    rw [getCtx_append_of_some l l2 j c hg]
    rw [hg] at hx
    exact hx

theorem nrLeCtxs_PIL (origin : SymHeap) (cv : CVar) :
    ∀ (ids : List Nat) (st : CacheState),
    nrLeCtxs st.ctxs (processInterveningList origin cv ids st).ctxs := by
  intro ids
  induction ids with
  | nil => intro st; exact nrLeCtxs_refl _
  | cons cid rest ih =>
    intro st
    rw [processInterveningList]
    refine nrLeCtxs_trans ?_ (ih (processIntervening origin cv st cid))
    rw [processIntervening_ctxs]
    exact nrLeCtxs_modify _ _ _
      (fun c x hx => mem_insertCVar x cv c.needReexecFor hx)

theorem nrLeCtxs_rediscover (s : CacheState) (e : SymHeap) (cv : CVar) :
    nrLeCtxs s.ctxs (rediscoverGlVar s e cv).state.ctxs := by
  cases hp : findAliveIdx s cv with
  | none =>
    simp only [rediscoverGlVar, hp]
    exact nrLeCtxs_refl _
  | some p =>
    simp only [rediscoverGlVar, hp]
    refine nrLeCtxs_trans ?_ (nrLeCtxs_PIL (surroundAt s p) cv
      (s.ctxStack.take p).reverse _)
    exact nrLeCtxs_modify _ _ _
      (fun c x hx => mem_insertCVar x cv c.needReexecFor hx)

theorem nrLeCtxs_cutGlobals :
    ∀ (uids : List Nat) (s : CacheState) (sh : SymHeap),
    nrLeCtxs s.ctxs (cutGlobals s sh uids).state.ctxs := by
  intro uids
  induction uids with
  | nil => intro s sh; exact nrLeCtxs_refl _
  | cons uid rest ih =>
    intro s sh
    unfold cutGlobals
    by_cases h1 : s.stor.isOnStack uid
    · simp only [h1, if_true]
      exact ih s sh
    · simp only [h1, Bool.false_eq_true, if_false]
      by_cases h2 : isVarAlive sh ⟨uid, 0⟩
      · simp only [h2, if_true]
        exact ih s sh
      · simp only [h2, Bool.false_eq_true, if_false]
        by_cases h3 : (rediscoverGlVar s sh ⟨uid, 0⟩).found
        · simp only [h3, if_true]
          exact nrLeCtxs_trans (nrLeCtxs_rediscover s sh ⟨uid, 0⟩)
            (ih (rediscoverGlVar s sh ⟨uid, 0⟩).state
              (rediscoverGlVar s sh ⟨uid, 0⟩).sh)
        · simp only [h3, Bool.false_eq_true, if_false]
          exact nrLeCtxs_trans (nrLeCtxs_rediscover s sh ⟨uid, 0⟩)
            (ih (rediscoverGlVar s sh ⟨uid, 0⟩).state
              (rediscoverGlVar s sh ⟨uid, 0⟩).sh)

theorem nrLeCtxs_getCallCtxPriv (s : CacheState) (e : SymHeap) (fnc : Fnc) :
    nrLeCtxs s.ctxs (getCallCtxPriv s e fnc).2.ctxs := by
  cases hl : pfcLookup (cacheSlots s.cache fnc.uid) e with
  | none =>
    simp only [getCallCtxPriv, hl]
    exact nrLeCtxs_append _ _
  | some cid =>
    cases hc : getCtx s.ctxs cid with
    | none =>
      simp only [getCallCtxPriv, hl, hc]
      exact nrLeCtxs_refl _
    | some c =>
      by_cases h1 : c.computed
      · by_cases h2 : c.flushed
        · simp only [getCallCtxPriv, hl, hc, h1, h2, Bool.not_true,
            Bool.false_eq_true, if_false]
          exact nrLeCtxs_refl _
        · simp only [getCallCtxPriv, hl, hc, h1, h2, Bool.not_true,
            Bool.not_false, Bool.false_eq_true, if_false, if_true]
          exact nrLeCtxs_refl _
      · simp only [getCallCtxPriv, hl, hc, h1, Bool.not_false, if_true]
        exact nrLeCtxs_refl _

theorem nrLeCtxs_getCallCtx (s : CacheState) (e : SymHeap) (fnc : Fnc)
    (insn : Insn) :
    nrLeCtxs s.ctxs (SymCallCache.getCallCtx s e fnc insn).2.ctxs := by
  have hprep : nrLeCtxs s.ctxs (prepCall s e fnc insn).state.ctxs := by
    unfold prepCall resolveHeapCut
    exact nrLeCtxs_cutGlobals fnc.vars
      { s with bt := pushCall s.bt fnc.uid e }
      (killInsn insn (setCallArgs s.stor (pushCall s.bt fnc.uid e) fnc insn
        e).1)
  cases hp : getCallCtxPriv (prepCall s e fnc insn).state
      (prepCall s e fnc insn).pruned fnc with
  | mk o s3 =>
    have hpriv : nrLeCtxs (prepCall s e fnc insn).state.ctxs s3.ctxs := by
      have := nrLeCtxs_getCallCtxPriv (prepCall s e fnc insn).state
        (prepCall s e fnc insn).pruned fnc
      rw [hp] at this
      exact this
    cases o with
    | none =>
      simp only [SymCallCache.getCallCtx, hp]
      exact nrLeCtxs_trans hprep hpriv
    | some cid =>
      simp only [SymCallCache.getCallCtx, hp]
      refine nrLeCtxs_trans (nrLeCtxs_trans hprep hpriv) ?_
      exact nrLeCtxs_modify _ _ _ (fun c x hx => hx)

theorem nrLeCtxs_deposit (s : CacheState) (cid : Nat) (sh : SymHeap) :
    nrLeCtxs s.ctxs (depositResult s cid sh).ctxs :=
  nrLeCtxs_modify _ _ _ (fun c x hx => hx)

theorem flushCallResults_ctxs (s : CacheState) (cid : Nat) (t : CacheState)
    (outs : List SymHeap) (h : flushCallResults s cid = some (t, outs)) :
    ∃ c, getCtx s.ctxs cid = some c
      ∧ t.ctxs = modifyCtx s.ctxs cid
          (fun _ => { c with computed := true, flushed := true }) := by
  cases hc : getCtx s.ctxs cid with
  | none => simp [flushCallResults, hc] at h
  | some c =>
    refine ⟨c, rfl, ?_⟩
    simp only [flushCallResults, hc] at h
    by_cases h1 : c.flushed
    · simp [h1] at h
    · rw [if_neg (by simp [h1])] at h
      by_cases h2 : s.ctxStack.head? = some cid
      · rw [if_neg (by simp [h2])] at h
        cases hm : List.mapM (processResultHeap s.stor s.bt
            { c with computed := true, flushed := true }) c.rawResults with
        | none =>
          rw [hm] at h
          exact Option.noConfusion h
        | some outs0 =>
          rw [hm] at h
          simp only [Option.some.injEq, Prod.mk.injEq] at h
          rw [← h.1]
      · rw [if_pos (by simp [h2])] at h
        simp at h

/-- Claim C9: the `needReexecFor` set of a context only ever grows — no
operation of the call cache (context reuse through `getCallCtx`, result
deposit, `flushCallResults`, or a rediscovery) removes a variable from it,
so once a global enters a context's `needReexecFor` it is still there after
any later operation. -/
theorem claim_C9_needReexec_monotone (op : Op) (s : CacheState) (i : Nat)
    (x : CVar) (h : x ∈ needReexecAt s i) :
    x ∈ needReexecAt (applyOp op s) i := by
  cases op with
  | callCtx e f insn => exact nrLeCtxs_getCallCtx s e f insn i x h
  | deposit cid sh => exact nrLeCtxs_deposit s cid sh i x h
  | rediscover e cv => exact nrLeCtxs_rediscover s e cv i x h
  | flush cid =>
    simp only [applyOp]
    cases hf : flushCallResults s cid with
    | none => exact h
    | some r =>
      cases r with
      | mk t outs =>
        obtain ⟨c, hc, hct⟩ := flushCallResults_ctxs s cid t outs hf
        show x ∈ nrOf t.ctxs i
        rw [hct]
        exact nrLeCtxs_modify_const s.ctxs cid c _ hc (fun y hy => hy) i x h

def wit9ctx : SymCallCtx :=
  { fnc := ⟨1, [], []⟩, entry := emptyHeap, surround := emptyHeap,
    dst := Operand.void, rawResults := [], nestLevel := 1, computed := false,
    flushed := false, needReexecFor := [⟨7, 0⟩] }

def wit9state : CacheState :=
  { stor := ⟨[7]⟩, ctxs := [wit9ctx], cache := [], ctxStack := [0],
    bt := ⟨[⟨1, emptyHeap⟩]⟩ }

theorem claim_C9_witness :
    (⟨7, 0⟩ : CVar) ∈ needReexecAt (applyOp (Op.flush 0) wit9state) 0 :=
  claim_C9_needReexec_monotone (Op.flush 0) wit9state 0 ⟨7, 0⟩ (by decide)

/-- The cut contributed by the globals loop when no rediscovery takes
place: exactly the accessible globals currently alive in the heap. -/
def pureCutGlobals (stor : Storage) (sh : SymHeap) : List Nat → List CVar
  | [] => []
  | uid :: rest =>
      if stor.isOnStack uid then pureCutGlobals stor sh rest
      else if isVarAlive sh ⟨uid, 0⟩ then
        ⟨uid, 0⟩ :: pureCutGlobals stor sh rest
      else pureCutGlobals stor sh rest

/-- The heap after argument binding and instruction kill, as a function of
the inputs only. -/
def prepProcessed (stor : Storage) (bt1 : SymBackTrace) (fnc : Fnc)
    (insn : Insn) (h : SymHeap) : SymHeap :=
  killInsn insn (setCallArgs stor bt1 fnc insn h).1

/-- The cut set computed by `resolveHeapCut` when no rediscovery takes
place, as a function of the inputs only. -/
def prepCut (stor : Storage) (bt1 : SymBackTrace) (fnc : Fnc) (insn : Insn)
    (h : SymHeap) : List CVar :=
  pureCutGlobals stor (prepProcessed stor bt1 fnc insn h) fnc.vars
    ++ cutLocals stor fnc.vars (countOccurrencesOfTopFnc bt1)
        (prepProcessed stor bt1 fnc insn h)

/-- The pruned entry heap a rediscovery-free call prepares, as a function
of the storage, the pre-call backtrace and the call inputs only. -/
def prunedOf (stor : Storage) (bt : SymBackTrace) (fnc : Fnc) (insn : Insn)
    (h : SymHeap) : SymHeap :=
  (splitHeapByCVars (prepProcessed stor (pushCall bt fnc.uid h) fnc insn h)
    (prepCut stor (pushCall bt fnc.uid h) fnc insn h)).1

/-- The surround heap a rediscovery-free call prepares. -/
def surroundOf (stor : Storage) (bt : SymBackTrace) (fnc : Fnc)
    (insn : Insn) (h : SymHeap) : SymHeap :=
  ((splitHeapByCVars (prepProcessed stor (pushCall bt fnc.uid h) fnc insn h)
    (prepCut stor (pushCall bt fnc.uid h) fnc insn h)).2).destroyRet

theorem rediscover_found_false (s : CacheState) (e : SymHeap) (cv : CVar)
    (h : (rediscoverGlVar s e cv).found = false) :
    rediscoverGlVar s e cv = ⟨false, e, s⟩ := by
  cases hp : findAliveIdx s cv with
  | none => simp [rediscoverGlVar, hp]
  | some p => simp [rediscoverGlVar, hp] at h

theorem cutGlobals_false :
    ∀ (uids : List Nat) (s : CacheState) (sh : SymHeap),
    (cutGlobals s sh uids).rediscovered = false →
    cutGlobals s sh uids = ⟨pureCutGlobals s.stor sh uids, sh, s, false⟩ := by
  intro uids
  induction uids with
  | nil => intro s sh _; rfl
  | cons uid rest ih =>
    intro s sh hrd
    unfold cutGlobals at hrd ⊢
    unfold pureCutGlobals
    by_cases h1 : s.stor.isOnStack uid
    · simp only [h1, if_true] at hrd ⊢
      exact ih s sh hrd
    · simp only [h1, Bool.false_eq_true, if_false] at hrd ⊢
      by_cases h2 : isVarAlive sh ⟨uid, 0⟩
      · simp only [h2, if_true] at hrd ⊢
        have hr := ih s sh hrd
        rw [hr]
      · simp only [h2, Bool.false_eq_true, if_false] at hrd ⊢
        by_cases h3 : (rediscoverGlVar s sh ⟨uid, 0⟩).found
        · simp only [h3, if_true] at hrd
          simp at hrd
        · simp only [h3, Bool.false_eq_true, if_false] at hrd ⊢
          have hre := rediscover_found_false s sh ⟨uid, 0⟩ (by simpa using h3)
          rw [hre] at hrd ⊢
          exact ih s sh hrd

theorem prepCall_no_rediscover (s : CacheState) (h : SymHeap) (fnc : Fnc)
    (insn : Insn) (hrd : (prepCall s h fnc insn).rediscovered = false) :
    prepCall s h fnc insn
      = ⟨{ s with bt := pushCall s.bt fnc.uid h },
         prunedOf s.stor s.bt fnc insn h,
         surroundOf s.stor s.bt fnc insn h, false⟩ := by
  have hg : (cutGlobals { s with bt := pushCall s.bt fnc.uid h }
      (killInsn insn
        (setCallArgs s.stor (pushCall s.bt fnc.uid h) fnc insn h).1)
      fnc.vars).rediscovered = false := hrd
  have hcg := cutGlobals_false fnc.vars
    { s with bt := pushCall s.bt fnc.uid h }
    (killInsn insn (setCallArgs s.stor (pushCall s.bt fnc.uid h) fnc insn
      h).1) hg
  simp only [prepCall, resolveHeapCut]
  rw [hcg]
  simp only [prunedOf, surroundOf, prepCut, prepProcessed]

theorem areEqual_refl (sh : SymHeap) : areEqual sh sh = true := by
  simp [areEqual, List.all_eq_true]

theorem pfcLookup_append_of_none (slots : PfcSlots) (P : SymHeap)
    (cid : Nat) (h : pfcLookup slots P = none) :
    pfcLookup (slots ++ [(P, cid)]) P = some cid := by
  induction slots with
  | nil => simp [pfcLookup, areEqual_refl]
  | cons sl rest ih =>
    rw [List.cons_append]
    unfold pfcLookup at h ⊢
    by_cases he : areEqual sl.1 P
    · simp [he] at h
    · simp only [he, Bool.false_eq_true, if_false] at h ⊢
      exact ih h

theorem cacheSlots_cacheSet_self (cache : List (Nat × PfcSlots)) (uid : Nat)
    (slots : PfcSlots) :
    cacheSlots (cacheSet cache uid slots) uid = slots := by
  induction cache with
  | nil => simp [cacheSet, cacheSlots]
  | cons e rest ih =>
    by_cases he : e.1 = uid
    · simp [cacheSet, cacheSlots, he]
    · simp [cacheSet, cacheSlots, he, ih]

theorem modifyCtx_append_length (l : List SymCallCtx) (c : SymCallCtx)
    (f : SymCallCtx → SymCallCtx) :
    modifyCtx (l ++ [c]) l.length f = l ++ [f c] := by
  induction l with
  | nil => rfl
  | cons d ds ih => simpa [modifyCtx] using ih

theorem popCall_pushCall (bt : SymBackTrace) (uid : Nat) (sh : SymHeap) :
    popCall (pushCall bt uid sh) = bt := rfl

/-- The driver deposits a list of raw result heaps one by one. -/
def depositAll (rs : List SymHeap) (s : CacheState) (cid : Nat) :
    CacheState :=
  rs.foldl (fun st sh => depositResult st cid sh) s

theorem depositAll_state (rs : List SymHeap) :
    ∀ (s : CacheState) (cid : Nat),
    (depositAll rs s cid).stor = s.stor
    ∧ (depositAll rs s cid).cache = s.cache
    ∧ (depositAll rs s cid).ctxStack = s.ctxStack
    ∧ (depositAll rs s cid).bt = s.bt
    ∧ getCtx (depositAll rs s cid).ctxs cid
        = (getCtx s.ctxs cid).map
            (fun c => { c with rawResults := c.rawResults ++ rs }) := by
  induction rs with
  | nil =>
    intro s cid
    refine ⟨rfl, rfl, rfl, rfl, ?_⟩
    show getCtx s.ctxs cid = _
    cases getCtx s.ctxs cid <;> simp
  | cons sh rest ih =>
    intro s cid
    have hstep : depositAll (sh :: rest) s cid
        = depositAll rest (depositResult s cid sh) cid := rfl
    rw [hstep]
    rcases ih (depositResult s cid sh) cid with ⟨h1, h2, h3, h4, h5⟩
    refine ⟨h1, h2, h3, h4, ?_⟩
    rw [h5]
    have hdep : getCtx (depositResult s cid sh).ctxs cid
        = (getCtx s.ctxs cid).map
            (fun c => { c with rawResults := c.rawResults ++ [sh] }) := by
      simp only [depositResult]
      rw [getCtx_modifyCtx_self]
    rw [hdep]
    cases getCtx s.ctxs cid <;> simp

theorem flushCallResults_full (s : CacheState) (cid : Nat) (c : SymCallCtx)
    (t : CacheState) (outs : List SymHeap)
    (hc : getCtx s.ctxs cid = some c)
    (h : flushCallResults s cid = some (t, outs)) :
    t = { s with
          ctxs := modifyCtx s.ctxs cid
            (fun _ => { c with computed := true, flushed := true }),
          ctxStack := s.ctxStack.tail,
          bt := popCall s.bt } := by
  simp only [flushCallResults, hc] at h
  by_cases h1 : c.flushed
  · simp [h1] at h
  · rw [if_neg (by simp [h1])] at h
    by_cases h2 : s.ctxStack.head? = some cid
    · rw [if_neg (by simp [h2])] at h
      cases hm : List.mapM (processResultHeap s.stor s.bt
          { c with computed := true, flushed := true }) c.rawResults with
      | none =>
        rw [hm] at h
        exact Option.noConfusion h
      | some outs0 =>
        rw [hm] at h
        simp only [Option.some.injEq, Prod.mk.injEq] at h
        exact h.1.symm
    · rw [if_pos (by simp [h2])] at h
      simp at h

/-- The context a rediscovery-free first call creates, after the public
layer records destination, nesting level and surround on it. -/
def c1After (s0 : CacheState) (h : SymHeap) (fnc : Fnc) (insn : Insn) :
    SymCallCtx :=
  { fnc := fnc, entry := prunedOf s0.stor s0.bt fnc insn h,
    surround := surroundOf s0.stor s0.bt fnc insn h,
    dst := (insn.operands.get? 0).getD Operand.void,
    rawResults := [],
    nestLevel := countOccurrencesOfFnc (pushCall s0.bt fnc.uid h) fnc.uid,
    computed := false, flushed := false, needReexecFor := [] }

/-- The cache state after a rediscovery-free first call that missed the
cache. -/
def s1After (s0 : CacheState) (h : SymHeap) (fnc : Fnc) (insn : Insn) :
    CacheState :=
  { stor := s0.stor, ctxs := s0.ctxs ++ [c1After s0 h fnc insn],
    cache := cacheSet s0.cache fnc.uid
      (pfcInsert (cacheSlots s0.cache fnc.uid)
        (prunedOf s0.stor s0.bt fnc insn h) s0.ctxs.length),
    ctxStack := s0.ctxs.length :: s0.ctxStack,
    bt := pushCall s0.bt fnc.uid h }

theorem call1_explicit (s0 : CacheState) (h : SymHeap) (fnc : Fnc)
    (insn : Insn)
    (hmiss : pfcLookup (cacheSlots s0.cache fnc.uid)
        (prunedOf s0.stor s0.bt fnc insn h) = none)
    (hrd1 : (prepCall s0 h fnc insn).rediscovered = false) :
    SymCallCache.getCallCtx s0 h fnc insn
      = (some s0.ctxs.length, s1After s0 h fnc insn) := by
  have hprep1 := prepCall_no_rediscover s0 h fnc insn hrd1
  simp only [SymCallCache.getCallCtx, hprep1, getCallCtxPriv, hmiss]
  rw [modifyCtx_append_length]
  simp only [s1After, c1After]

/-- Claim C1: a first `getCallCtx` that misses the cache and triggers no
rediscovery, followed by depositing results and flushing, makes a second
`getCallCtx` on a structurally equal entry heap for the same function and
call instruction — with no rediscovery occurring in between — return the
very context the first call created, with `needExec() = false` and
`needReexecFor()` empty, so the driver skips executing the callee body. -/
theorem claim_C1_cache_reuse (s0 : CacheState) (h : SymHeap) (fnc : Fnc)
    (insn : Insn) (rs : List SymHeap) (s2 : CacheState)
    (outs : List SymHeap)
    (hmiss : pfcLookup (cacheSlots s0.cache fnc.uid)
        (prunedOf s0.stor s0.bt fnc insn h) = none)
    (hrd1 : (prepCall s0 h fnc insn).rediscovered = false)
    (hflush : flushCallResults
        (depositAll rs (SymCallCache.getCallCtx s0 h fnc insn).2
          s0.ctxs.length) s0.ctxs.length = some (s2, outs))
    (hrd2 : (prepCall s2 h fnc insn).rediscovered = false) :
    (SymCallCache.getCallCtx s2 h fnc insn).1 = some s0.ctxs.length
    ∧ ((getCtx (SymCallCache.getCallCtx s2 h fnc insn).2.ctxs
          s0.ctxs.length).map needExec) = some false
    ∧ ((getCtx (SymCallCache.getCallCtx s2 h fnc insn).2.ctxs
          s0.ctxs.length).map (·.needReexecFor)) = some ([] : List CVar) := by
  have hcall1 := call1_explicit s0 h fnc insn hmiss hrd1
  simp only [hcall1] at hflush
  obtain ⟨hdst, hdca, hdcs, hdbt, hdget⟩ :=
    depositAll_state rs (s1After s0 h fnc insn) s0.ctxs.length
  have hc1get : getCtx (s1After s0 h fnc insn).ctxs s0.ctxs.length
      = some (c1After s0 h fnc insn) := getCtx_append_singleton s0.ctxs _
  have hdget2 : getCtx (depositAll rs (s1After s0 h fnc insn)
        s0.ctxs.length).ctxs s0.ctxs.length
      = some { fnc := fnc, entry := prunedOf s0.stor s0.bt fnc insn h,
               surround := surroundOf s0.stor s0.bt fnc insn h,
               dst := (insn.operands.get? 0).getD Operand.void,
               rawResults := rs,
               nestLevel := countOccurrencesOfFnc
                 (pushCall s0.bt fnc.uid h) fnc.uid,
               computed := false, flushed := false,
               needReexecFor := [] } := by
    rw [hdget, hc1get]
    simp [c1After]
  have hs2 := flushCallResults_full _ s0.ctxs.length _ s2 outs hdget2 hflush
  have hs2stor : s2.stor = s0.stor := by
    rw [hs2]
    exact hdst
  have hs2bt : s2.bt = s0.bt := by
    rw [hs2]
    show popCall (depositAll rs (s1After s0 h fnc insn) s0.ctxs.length).bt
      = s0.bt
    rw [hdbt]
    rfl
  have hs2cache : s2.cache = cacheSet s0.cache fnc.uid
      (pfcInsert (cacheSlots s0.cache fnc.uid)
        (prunedOf s0.stor s0.bt fnc insn h) s0.ctxs.length) := by
    rw [hs2]
    exact hdca
  have hs2get : getCtx s2.ctxs s0.ctxs.length
      = some { fnc := fnc, entry := prunedOf s0.stor s0.bt fnc insn h,
               surround := surroundOf s0.stor s0.bt fnc insn h,
               dst := (insn.operands.get? 0).getD Operand.void,
               rawResults := rs,
               nestLevel := countOccurrencesOfFnc
                 (pushCall s0.bt fnc.uid h) fnc.uid,
               computed := true, flushed := true,
               needReexecFor := [] } := by
    simp only [hs2]
    rw [getCtx_modifyCtx_self, hdget2]
    rfl
  have hprep2 := prepCall_no_rediscover s2 h fnc insn hrd2
  rw [hs2stor, hs2bt] at hprep2
  have hlook2 : pfcLookup (cacheSlots s2.cache fnc.uid)
      (prunedOf s0.stor s0.bt fnc insn h) = some s0.ctxs.length := by
    rw [hs2cache, cacheSlots_cacheSet_self]
    exact pfcLookup_append_of_none _ _ _ hmiss
  have hpriv2 : getCallCtxPriv
      { stor := s0.stor, ctxs := s2.ctxs, cache := s2.cache,
        ctxStack := s2.ctxStack, bt := pushCall s0.bt fnc.uid h }
      (prunedOf s0.stor s0.bt fnc insn h) fnc
      = (some s0.ctxs.length,
         { stor := s0.stor, ctxs := s2.ctxs, cache := s2.cache,
           ctxStack := s0.ctxs.length :: s2.ctxStack,
           bt := pushCall s0.bt fnc.uid h }) := by
    simp only [getCallCtxPriv, hlook2, hs2get]
    rfl
  refine ⟨?_, ?_, ?_⟩
  · simp only [SymCallCache.getCallCtx, hprep2, hpriv2]
  · simp only [SymCallCache.getCallCtx, hprep2, hpriv2]
    rw [getCtx_modifyCtx_self, hs2get]
    rfl
  · simp only [SymCallCache.getCallCtx, hprep2, hpriv2]
    rw [getCtx_modifyCtx_self, hs2get]
    rfl

def wit1s0 : CacheState :=
  { stor := ⟨[]⟩, ctxs := [], cache := [], ctxStack := [], bt := ⟨[]⟩ }

def wit1fnc : Fnc := ⟨1, [], []⟩

def wit1insn : Insn := ⟨[Operand.void, Operand.cst 1], []⟩

def wit1s2 : CacheState :=
  { stor := ⟨[]⟩,
    ctxs := [{ fnc := ⟨1, [], []⟩, entry := emptyHeap,
               surround := emptyHeap, dst := Operand.void,
               rawResults := [emptyHeap], nestLevel := 1, computed := true,
               flushed := true, needReexecFor := [] }],
    cache := [(1, [(emptyHeap, 0)])], ctxStack := [], bt := ⟨[]⟩ }

theorem claim_C1_witness :
    (SymCallCache.getCallCtx wit1s2 emptyHeap wit1fnc wit1insn).1 = some 0
    ∧ ((getCtx (SymCallCache.getCallCtx wit1s2 emptyHeap wit1fnc
          wit1insn).2.ctxs 0).map needExec) = some false
    ∧ ((getCtx (SymCallCache.getCallCtx wit1s2 emptyHeap wit1fnc
          wit1insn).2.ctxs 0).map (·.needReexecFor))
        = some ([] : List CVar) :=
  claim_C1_cache_reuse wit1s0 emptyHeap wit1fnc wit1insn [emptyHeap]
    wit1s2 [emptyHeap] (by decide) (by decide) (by decide) (by decide)

end Predator
